import Mathlib

/-!
Shallow embedding of the deterministic simulation core of the
Generative-design repository (turn-based fog-of-war strategy match):
resource dictionaries and faction economy (entities/faction.py),
units and combat (entities/unit.py), map tiles and visibility
(entities/tile.py, core/game_state.py), unit production
(core/game_engine.py), the ability registry (abilities/base.py),
turn rotation and the turn manager (core/game_state.py,
core/turn_manager.py), and victory checking.

Python `Dict[str, int]` resource maps are modelled as association
lists with lookup of the first matching key (Python dict keys are
unique, recorded as a `Nodup` hypothesis where a proof needs it);
Python `None` becomes `Option`; a method that mutates `self` becomes
a function returning the updated value; a statement that can raise
becomes a result paired with an `Option String` holding the raised
exception message.  Numbers the code keeps non-negative (stats,
health, counts) are `Nat`; map coordinates are `Int`.
-/

namespace GD

/-- Python resource dictionary `Dict[str, int]`: an association list. -/
abbrev Dict := List (String × Int)

/-- `d.get(k, 0)` for a Python dict (value of the unique matching key,
`0` when absent). -/
def dGet : Dict → String → Int
  | [], _ => 0
  | p :: rest, k => if p.1 == k then p.2 else dGet rest k

/-- `k in d` for a Python dict. -/
def hasKey : Dict → String → Bool
  | [], _ => false
  | p :: rest, k => p.1 == k || hasKey rest k

/-- Rewrite the value stored at key `k` by `f` (the entry keeps its
place, other entries are untouched): the effect of a Python
`d[k] = f(d[k])` on a present key. -/
def adjust : Dict → String → (Int → Int) → Dict
  | [], _, _ => []
  | p :: rest, k, f =>
    (if p.1 == k then (k, f p.2) else p) :: adjust rest k f

/-- `d[k] = v` for a Python dict: overwrite when the key exists,
append a new entry otherwise. -/
def dSet (d : Dict) (k : String) (v : Int) : Dict :=
  if hasKey d k then adjust d k (fun _ => v) else d ++ [(k, v)]

/-- `Faction.can_afford` (final_project/entities/faction.py, lines
112-117): every listed cost is covered by `resources.get(resource, 0)`. -/
def can_afford (resources : Dict) (costs : Dict) : Bool :=
  costs.all (fun p => decide (p.2 ≤ dGet resources p.1))

/-- One step of the deduction loop in `Faction.spend_resources`:
`self.resources[resource] -= cost` raises `KeyError` when the key is
absent; a raised exception is reported as `some` message. -/
def subResource (resources : Dict) (k : String) (c : Int) :
    Dict × Option String :=
  if hasKey resources k then (adjust resources k (fun v => v - c), none)
  else (resources, some "KeyError")

/-- The deduction loop of `Faction.spend_resources`: deduct the listed
costs one by one, stopping with the exception when a key is missing
(deductions already made stay applied, as in Python). -/
def spendLoop (resources : Dict) : List (String × Int) → Dict × Option String
  | [] => (resources, none)
  | p :: rest =>
    match subResource resources p.1 p.2 with
    | (res1, none) => spendLoop res1 rest
    | (res1, some e) => (res1, some e)

/-- `Faction.spend_resources` (final_project/entities/faction.py, lines
119-126): returns `false` with no change when `can_afford` fails,
otherwise deducts every listed cost.  The result is (returned value,
updated resources, raised exception if any). -/
def spend_resources (resources : Dict) (costs : Dict) :
    Bool × Dict × Option String :=
  if can_afford resources costs then
    let r := spendLoop resources costs
    (true, r.1, r.2)
  else (false, resources, none)

/-- One step of `Faction.add_resources`:
`self.resources[resource] = self.resources.get(resource, 0) + amount`
never raises, but `self.resources_gathered[resource] += amount` raises
`KeyError` when the key is absent from the gathered counters. -/
def addResource (resources gathered : Dict) (k : String) (v : Int) :
    Dict × Dict × Option String :=
  let res1 := dSet resources k (dGet resources k + v)
  if hasKey gathered k then
    (res1, adjust gathered k (fun w => w + v), none)
  else (res1, gathered, some "KeyError")

/-- The loop of `Faction.add_resources` (final_project/entities/faction.py,
lines 128-132), threading resources and lifetime gathered counters. -/
def addLoop (resources gathered : Dict) :
    List (String × Int) → Dict × Dict × Option String
  | [] => (resources, gathered, none)
  | p :: rest =>
    match addResource resources gathered p.1 p.2 with
    | (r1, g1, none) => addLoop r1 g1 rest
    | (r1, g1, some e) => (r1, g1, some e)

theorem dGet_eq_zero_of_not_hasKey {d : Dict} {k : String}
    (h : hasKey d k = false) : dGet d k = 0 := by
  induction d with
  | nil => rfl
  | cons p rest ih =>
    simp only [hasKey, Bool.or_eq_false_iff] at h
    simp only [dGet, h.1, if_false]
    exact ih h.2

theorem dGet_adjust (d : Dict) (k : String) (f : Int → Int) (r : String) :
    dGet (adjust d k f) r =
      if r = k then (if hasKey d k then f (dGet d k) else 0)
      else dGet d r := by
  induction d with
  | nil => simp [adjust, dGet, hasKey]
  | cons p rest ih =>
    by_cases hpk : p.1 = k
    · simp only [adjust, hpk, beq_self_eq_true, if_true]
      by_cases hrk : r = k
      · subst hrk
        simp [dGet, hasKey, hpk]
      · have h1 : (k == r) = false := by
          simp only [beq_eq_false_iff_ne]; exact fun h => hrk h.symm
        have h2 : (p.1 == r) = false := by
          simp only [beq_eq_false_iff_ne]; intro h
          exact hrk (by rw [← h, hpk])
        simp [dGet, h1, h2, ih, hrk]
    · have h3 : (p.1 == k) = false := by
        simp only [beq_eq_false_iff_ne]; exact hpk
      simp only [adjust, h3, Bool.false_eq_true, if_false]
      by_cases hpr : p.1 = r
      · have hrk : ¬ r = k := fun h => hpk (by rw [hpr, h])
        simp [dGet, hasKey, hpr, hrk]
      · have h4 : (p.1 == r) = false := by
          simp only [beq_eq_false_iff_ne]; exact hpr
        simp [dGet, hasKey, h3, h4, ih]

theorem hasKey_adjust (d : Dict) (k : String) (f : Int → Int) (r : String) :
    hasKey (adjust d k f) r = hasKey d r := by
  induction d with
  | nil => rfl
  | cons p rest ih =>
    by_cases hpk : p.1 = k
    · by_cases hrk : r = k
      · subst hrk
        simp [adjust, hasKey, hpk]
      · have h1 : (k == r) = false := by
          simp only [beq_eq_false_iff_ne]; exact fun h => hrk h.symm
        have h2 : (p.1 == r) = false := by
          simp only [beq_eq_false_iff_ne]; intro h
          exact hrk (by rw [← h, hpk])
        simp [adjust, hasKey, hpk, h1, h2, ih]
    · have h3 : (p.1 == k) = false := by
        simp only [beq_eq_false_iff_ne]; exact hpk
      simp [adjust, hasKey, h3, ih]

theorem hasKey_iff_mem (d : Dict) (k : String) :
    hasKey d k = true ↔ k ∈ d.map Prod.fst := by
  induction d with
  | nil => simp [hasKey]
  | cons p rest ih =>
    simp only [hasKey, Bool.or_eq_true, beq_iff_eq, List.map_cons,
      List.mem_cons, ih]
    constructor
    · rintro (h | h)
      · exact Or.inl h.symm
      · exact Or.inr h
    · rintro (h | h)
      · exact Or.inl h.symm
      · exact Or.inr h

theorem dGet_append_single (d : Dict) (k : String) (v : Int) (r : String) :
    dGet (d ++ [(k, v)]) r =
      if r = k then (if hasKey d k then dGet d r else v)
      else dGet d r := by
  induction d with
  | nil =>
    by_cases hrk : r = k
    · subst hrk; simp [dGet, hasKey]
    · have h1 : (k == r) = false := by
        simp only [beq_eq_false_iff_ne]; exact fun hh => hrk hh.symm
      simp [dGet, hasKey, h1, hrk]
  | cons p rest ih =>
    simp only [List.cons_append, dGet, hasKey]
    by_cases hpr : p.1 = r
    · by_cases hrk : r = k
      · subst hrk
        simp [hpr]
      · simp [hpr, hrk]
    · have h4 : (p.1 == r) = false := by
        simp only [beq_eq_false_iff_ne]; exact hpr
      simp only [h4, Bool.false_eq_true, if_false, List.append_eq]
      rw [ih]
      by_cases hpk : p.1 = k
      · by_cases hrk : r = k
        · subst hrk; exact absurd hpk hpr
        · simp [hrk]
      · have h5 : (p.1 == k) = false := by
          simp only [beq_eq_false_iff_ne]; exact hpk
        simp [h5]

theorem dGet_dSet (d : Dict) (k : String) (v : Int) (r : String) :
    dGet (dSet d k v) r = if r = k then v else dGet d r := by
  unfold dSet
  by_cases h : hasKey d k
  · rw [if_pos h, dGet_adjust]
    by_cases hrk : r = k <;> simp [hrk, h]
  · rw [if_neg h, dGet_append_single]
    rw [Bool.not_eq_true] at h
    by_cases hrk : r = k <;> simp [hrk, h]

/-- The key at which `subResource` deducts must be present for it to
succeed, and then the deduction is pointwise. -/
theorem spendLoop_dGet (costs : List (String × Int)) :
    ∀ (resources res2 : Dict),
    (costs.map Prod.fst).Nodup →
    spendLoop resources costs = (res2, none) →
    ∀ r, dGet res2 r = dGet resources r - dGet costs r := by
  induction costs with
  | nil =>
    intro resources res2 _ h r
    simp only [spendLoop] at h
    cases h
    simp [dGet]
  | cons p rest ih =>
    intro resources res2 hnd h r
    simp only [spendLoop, subResource] at h
    by_cases hk : hasKey resources p.1
    · rw [if_pos hk] at h
      simp only [List.map_cons, List.nodup_cons] at hnd
      have step := ih (adjust resources p.1 (fun v => v - p.2)) res2 hnd.2 h
      have hrest0 : dGet rest p.1 = 0 := by
        apply dGet_eq_zero_of_not_hasKey
        rw [← Bool.not_eq_true, hasKey_iff_mem]
        exact hnd.1
      rw [step r, dGet_adjust]
      by_cases hrk : r = p.1
      · subst hrk
        simp [dGet, hk, hrest0]
      · have h4 : (p.1 == r) = false := by
          simp only [beq_eq_false_iff_ne]; exact fun hh => hrk hh.symm
        simp [dGet, hrk, h4]
    · rw [if_neg hk] at h
      simp at h

/-- Claim C2.  `Faction.spend_resources` is all-or-nothing: when any
single listed resource is insufficient the call returns `False` and
leaves every resource total exactly as it was; when it returns `True`
(without raising) every listed amount has been deducted, pointwise. -/
theorem spend_resources_atomic (resources costs : Dict)
    (hnd : (costs.map Prod.fst).Nodup) :
    ((∃ p ∈ costs, dGet resources p.1 < p.2) →
      spend_resources resources costs = (false, resources, none)) ∧
    (∀ res2, spend_resources resources costs = (true, res2, none) →
      ∀ r, dGet res2 r = dGet resources r - dGet costs r) := by
  constructor
  · rintro ⟨p, hmem, hlt⟩
    have : can_afford resources costs = false := by
      unfold can_afford
      rw [List.all_eq_false]
      exact ⟨p, hmem, by simpa using hlt⟩
    unfold spend_resources
    rw [this]
    simp
  · intro res2 h
    unfold spend_resources at h
    by_cases hc : can_afford resources costs
    · rw [if_pos hc] at h
      simp only [Prod.mk.injEq, true_and] at h
      have hloop : spendLoop resources costs = (res2, none) := by
        obtain ⟨h1, h2⟩ := h
        exact Prod.ext h1 h2
      exact spendLoop_dGet costs resources res2 hnd hloop
    · rw [if_neg hc] at h
      simp at h

/-- Witness for C2 at a concrete faction: gold 5 cannot pay a cost of
gold 10, so the spend returns `False` and the totals are untouched. -/
theorem spend_resources_atomic_witness :
    spend_resources [("gold", 5)] [("gold", 10)] =
      (false, [("gold", 5)], none) :=
  (spend_resources_atomic [("gold", 5)] [("gold", 10)] (by decide)).1
    ⟨("gold", 10), by decide, by decide⟩

/-!
Units and combat (final_project/entities/unit.py).  Unit abilities are
stored in the code as an enum set (final_project) or a string set
(project_abandoned); both are modelled as a list of the enum value
strings ("stealth", "heal", "build", "gather", "fortify", "charge",
"range_attack", "splash").
-/

/-- `UnitStats` (entities/unit.py, lines 29-53). -/
structure UnitStats where
  health : Nat
  max_health : Nat
  attack : Nat
  defense : Nat
  movement_speed : Nat
  attack_range : Nat
  sight_range : Nat
deriving Repr, DecidableEq

/-- `Unit` (entities/unit.py, lines 55-90): position, stats, abilities
and per-turn state.  The uuid `unit_id` is modelled as a `Nat`; the
sprite and status-effect map are irrelevant to the claims and omitted. -/
structure Unit where
  unit_id : Nat
  name : String
  faction_id : String
  owner_id : String
  x : Int
  y : Int
  stats : UnitStats
  abilities : List String
  has_moved : Bool
  has_attacked : Bool
  is_fortified : Bool
  creation_cost : Dict
  experience : Nat
  veterancy_level : Nat
deriving Repr, DecidableEq

/-- Manhattan distance `abs(x1 - x2) + abs(y1 - y2)`. -/
def manhattan (x1 y1 x2 y2 : Int) : Nat :=
  (x1 - x2).natAbs + (y1 - y2).natAbs

/-- `Unit.can_attack` (entities/unit.py, lines 96-98). -/
def Unit.can_attack (u : Unit) : Bool :=
  !u.has_attacked && decide (0 < u.stats.health)

/-- `Unit.take_damage` (entities/unit.py, lines 154-159): health is
clamped at zero (`Nat` subtraction). -/
def Unit.take_damage (u : Unit) (damage : Nat) : Unit :=
  { u with stats := { u.stats with health := u.stats.health - damage } }

/-- `Unit.level_up` (entities/unit.py, lines 181-189). -/
def Unit.level_up (u : Unit) : Unit :=
  let mh := u.stats.max_health + 5
  { u with
    veterancy_level := u.veterancy_level + 1,
    stats := { u.stats with
      max_health := mh,
      health := min mh (u.stats.health + 5),
      attack := u.stats.attack + 2,
      defense := u.stats.defense + 1 } }

/-- `Unit.gain_experience` (entities/unit.py, lines 172-179): add the
experience, then level up once when the threshold is crossed. -/
def Unit.gain_experience (u : Unit) (exp : Nat) : Unit :=
  let u1 := { u with experience := u.experience + exp }
  let required := (u1.veterancy_level + 1) * 100
  if required ≤ u1.experience then u1.level_up else u1

/-- The working damage value after ability modification in
`Unit.attack`: the base attack, increased by the charge bonus
`int(base_damage * 1.25)` when the attacker has the charge ability and
has moved this turn (Python `int` truncation on a non-negative value is
`Nat` division). -/
def effective_attack (u : Unit) : Nat :=
  if u.abilities.contains "charge" && u.has_moved then
    u.stats.attack * 5 / 4
  else u.stats.attack

/-- The effective defense in `Unit.attack`: the target's defense,
multiplied by 1.5 with `int` truncation when the target is fortified. -/
def effective_defense (u : Unit) : Nat :=
  if u.is_fortified then u.stats.defense * 3 / 2 else u.stats.defense

/-- Result dictionary of `Unit.attack`. -/
inductive AttackResult where
  | fail (reason : String)
  | hit (damage_dealt : Nat) (target_remaining_health : Nat)
      (target_destroyed : Bool)
deriving Repr, DecidableEq

/-- `Unit.attack` (final_project/entities/unit.py, lines 116-152):
range check by Manhattan distance, charge bonus, fortification defense
bonus, damage floor of 1, damage application, attacker bookkeeping.
Returns the result plus the updated attacker and target. -/
def Unit.attack (self target : Unit) : AttackResult × Unit × Unit :=
  if !self.can_attack then (.fail "Cannot attack this turn", self, target)
  else
    let distance := manhattan self.x self.y target.x target.y
    if self.stats.attack_range < distance then
      (.fail "Target out of range", self, target)
    else
      let base_damage := self.stats.attack
      let base_damage :=
        if self.abilities.contains "charge" && self.has_moved then
          base_damage * 5 / 4
        else base_damage
      let defense := target.stats.defense
      let defense :=
        if target.is_fortified then defense * 3 / 2 else defense
      let final_damage := max 1 (base_damage - defense)
      let target1 := target.take_damage final_damage
      let self1 := Unit.gain_experience { self with has_attacked := true } 10
      (.hit final_damage target1.stats.health
        (decide (target1.stats.health ≤ 0)), self1, target1)

/-- Claim C1.  Whenever an attack succeeds (the attacker has not yet
attacked this turn, is alive, and the target is within attack range by
Manhattan distance), the damage dealt equals
`max 1 (effective_attack - effective_defense)` — effective defense
being the fortification-multiplied defense and effective attack the
ability-modified working damage — hence is at least 1, and exactly that
amount is subtracted from the target's health (clamped at zero). -/
theorem attack_damage_floor (a t : Unit)
    (h1 : a.has_attacked = false)
    (h2 : 0 < a.stats.health)
    (h3 : manhattan a.x a.y t.x t.y ≤ a.stats.attack_range) :
    let dmg := max 1 (effective_attack a - effective_defense t)
    (a.attack t).1 = .hit dmg (t.stats.health - dmg)
      (decide (t.stats.health - dmg ≤ 0)) ∧
    1 ≤ dmg ∧
    (a.attack t).2.2.stats.health = t.stats.health - dmg := by
  intro dmg
  have hca : a.can_attack = true := by
    simp [Unit.can_attack, h1, h2]
  unfold Unit.attack
  rw [hca]
  simp only [Bool.not_true, Bool.false_eq_true, if_false]
  rw [if_neg (by omega)]
  refine ⟨rfl, Nat.le_max_left 1 _, rfl⟩

/-- Witness for C1: scenario (1) of the spec, attacker at (5,5) with
attack 15 and range 3 against an unfortified defender at (6,5) with
defense 5 deals exactly 10 damage. -/
theorem attack_damage_floor_witness :
    let a : Unit := ⟨1, "Attacker", "f1", "p1", 5, 5,
      ⟨50, 50, 15, 5, 2, 3, 3⟩, [], false, false, false, [], 0, 0⟩
    let t : Unit := ⟨2, "Defender", "f2", "p2", 6, 5,
      ⟨50, 50, 10, 5, 2, 1, 3⟩, [], false, false, false, [], 0, 0⟩
    (a.attack t).1 = .hit 10 40 false ∧
    (a.attack t).2.2.stats.health = 40 := by
  intro a t
  have h := attack_damage_floor a t (by decide) (by decide) (by decide)
  refine ⟨?_, ?_⟩
  · rw [h.1]; decide
  · rw [h.2.2]; decide

/-!
Buildings, unit designs and factions
(final_project/entities/faction.py; designs as consumed by
project_abandoned/core/game_engine.py `_process_create_unit`).
-/

/-- `Building` (final_project/entities/faction.py, lines 33-72); the
building-type enum and sprite are irrelevant to the claims. -/
structure Building where
  building_id : String
  name : String
  x : Int
  y : Int
  health : Nat
  max_health : Nat
  is_construction_complete : Bool
  produces_units : List String
  resource_generation : Dict
  creation_cost : Dict
deriving Repr, DecidableEq

/-- A custom unit design dictionary as read by `_process_create_unit`
(project_abandoned/core/game_engine.py, lines 531-583): its name,
category, stat fields (with the engine-side defaults already applied),
ability ids and per-unit creation cost. -/
structure UnitDesign where
  name : String
  unit_category : String
  health : Nat
  attack : Nat
  defense : Nat
  movement_speed : Nat
  attack_range : Nat
  sight_range : Nat
  abilities : List String
  creation_cost : Dict
deriving Repr, DecidableEq

/-- `MAX_UNITS_PER_PLAYER` (config/game_config.py). -/
def MAX_UNITS_PER_PLAYER : Nat := 20

/-- `Faction` (final_project/entities/faction.py, lines 74-110): the
fields the verified operations touch. -/
structure Faction where
  faction_id : String
  owner_id : String
  name : String
  resources : Dict
  resources_gathered : Dict
  units : List Unit
  buildings : List Building
  custom_unit_designs : List (String × UnitDesign)
  units_created : Nat
  units_lost : Nat
deriving Repr, DecidableEq

/-- `Faction.get_building` (faction.py, lines 174-179): first building
with the given id. -/
def Faction.get_building (f : Faction) (building_id : String) :
    Option Building :=
  f.buildings.find? (fun b => b.building_id == building_id)

/-- `Faction.add_unit` (faction.py, lines 134-145): refuse beyond the
unit cap, otherwise stamp ownership and append. -/
def Faction.add_unit (f : Faction) (u : Unit) : Bool × Faction :=
  if MAX_UNITS_PER_PLAYER ≤ f.units.length then (false, f)
  else
    (true,
      { f with
        units := f.units ++
          [{ u with faction_id := f.faction_id, owner_id := f.owner_id }],
        units_created := f.units_created + 1 })

/-!
Visibility (fog of war): Tile.set_visible / Tile.set_explored
(project_abandoned/entities/tile.py, lines 72-88) and the full
recompute GameState._update_visibility / GameState._reveal_area
(final_project/core/game_state.py, lines 271-292).  The per-tile
per-agent boolean dictionaries of the whole grid are modelled as one
function from agent and coordinates to `Bool`; the fixed map
dimensions are passed as parameters (`get_tile` bounds checking).
-/

/-- The per-agent visibility bookkeeping of the whole tile grid. -/
structure VisState where
  visible : String → Int → Int → Bool
  explored : String → Int → Int → Bool

/-- `GameState.get_tile` succeeds exactly on these coordinates. -/
def inBounds (w h : Nat) (x y : Int) : Bool :=
  decide (0 ≤ x) && decide (x < (w : Int)) &&
  decide (0 ≤ y) && decide (y < (h : Int))

/-- `Tile.set_visible` (tile.py, lines 76-80) at one tile: set the
agent's visible flag, and when setting it true also set the agent's
explored flag (`set_explored`, lines 72-74). -/
def setVisible (s : VisState) (a : String) (x y : Int) (v : Bool) :
    VisState :=
  { visible := fun a2 x2 y2 =>
      if a2 = a ∧ x2 = x ∧ y2 = y then v else s.visible a2 x2 y2,
    explored :=
      if v then
        fun a2 x2 y2 =>
          if a2 = a ∧ x2 = x ∧ y2 = y then true else s.explored a2 x2 y2
      else s.explored }

/-- All grid coordinates, row by row (`for row in self.map_grid: for
tile in row`). -/
def coordList (w h : Nat) : List (Int × Int) :=
  (List.range h).flatMap
    (fun (y : Nat) =>
      (List.range w).map (fun (x : Nat) => ((x : Int), (y : Int))))

/-- The reset pass of `_update_visibility`: every tile's visible flag
set to false for every agent (explored flags untouched). -/
def resetVisibility (w h : Nat) (agents : List String) (s : VisState) :
    VisState :=
  (coordList w h).foldl
    (fun st c => agents.foldl (fun st2 a => setVisible st2 a c.1 c.2 false) st)
    s

/-- `range(-radius, radius + 1)`. -/
def offsetRange (radius : Nat) : List Int :=
  (List.range (2 * radius + 1)).map
    (fun (i : Nat) => (i : Int) - (radius : Int))

/-- The inner loop (`for dy in range(...)`) of
`GameState._reveal_area`, at a fixed `dx`. -/
def revealRow (w h : Nat) (cx cy : Int) (radius : Nat) (agent : String)
    (dx : Int) (dys : List Int) (s : VisState) : VisState :=
  dys.foldl
    (fun st2 dy =>
      if dx.natAbs + dy.natAbs ≤ radius then
        if inBounds w h (cx + dx) (cy + dy) then
          setVisible st2 agent (cx + dx) (cy + dy) true
        else st2
      else st2)
    s

/-- `GameState._reveal_area` (game_state.py, lines 285-292): reveal
every in-bounds tile within Manhattan distance `radius` of the center
for the given agent. -/
def reveal_area (w h : Nat) (cx cy : Int) (radius : Nat) (agent : String)
    (s : VisState) : VisState :=
  (offsetRange radius).foldl
    (fun st dx => revealRow w h cx cy radius agent dx (offsetRange radius) st)
    s

/-- The unit loop of `_update_visibility`: reveal around every living
unit of one faction for its owning agent. -/
def revealUnits (w h : Nat) (agent : String) (us : List Unit) (s : VisState) :
    VisState :=
  us.foldl
    (fun st2 u =>
      if 0 < u.stats.health then
        reveal_area w h u.x u.y u.stats.sight_range agent st2
      else st2)
    s

/-- The faction loop of `_update_visibility`. -/
def revealFactions (w h : Nat) (fs : List Faction) (s : VisState) : VisState :=
  fs.foldl (fun st f => revealUnits w h f.owner_id f.units st) s

/-- `GameState._update_visibility` (game_state.py, lines 271-283):
reset all visible flags for all agents, then reveal around every
living unit of every faction for its owning agent.  (`factions` is the
game state's agent-id-to-faction map; `add_faction` keys each faction
by its `owner_id`, so the key list is the owner-id list.) -/
def update_visibility (w h : Nat) (factions : List Faction) (s : VisState) :
    VisState :=
  revealFactions w h factions
    (resetVisibility w h (factions.map Faction.owner_id) s)

theorem setVisible_visible (s : VisState) (a : String) (x y : Int) (v : Bool)
    (a2 : String) (x2 y2 : Int) :
    (setVisible s a x y v).visible a2 x2 y2 =
      if a2 = a ∧ x2 = x ∧ y2 = y then v else s.visible a2 x2 y2 := rfl

theorem setVisible_false_explored (s : VisState) (a : String) (x y : Int) :
    (setVisible s a x y false).explored = s.explored := rfl

theorem setVisible_true_explored (s : VisState) (a : String) (x y : Int)
    (a2 : String) (x2 y2 : Int) :
    (setVisible s a x y true).explored a2 x2 y2 =
      if a2 = a ∧ x2 = x ∧ y2 = y then true else s.explored a2 x2 y2 := rfl

theorem mem_coordList (w h : Nat) (x y : Int) :
    (x, y) ∈ coordList w h ↔ inBounds w h x y = true := by
  unfold coordList inBounds
  rw [List.mem_flatMap]
  constructor
  · rintro ⟨yn, hyn, hm⟩
    rw [List.mem_map] at hm
    obtain ⟨xn, hxn, hEq⟩ := hm
    rw [List.mem_range] at hyn hxn
    have hx : (xn : Int) = x := congrArg Prod.fst hEq
    have hy : (yn : Int) = y := congrArg Prod.snd hEq
    simp only [Bool.and_eq_true, decide_eq_true_eq]
    omega
  · intro hb
    simp only [Bool.and_eq_true, decide_eq_true_eq] at hb
    refine ⟨y.toNat, ?_, ?_⟩
    · rw [List.mem_range]; omega
    · rw [List.mem_map]
      refine ⟨x.toNat, ?_, ?_⟩
      · rw [List.mem_range]; omega
      · have hx : (x.toNat : Int) = x := by omega
        have hy : (y.toNat : Int) = y := by omega
        rw [hx, hy]

theorem mem_offsetRange (radius : Nat) (d : Int) :
    d ∈ offsetRange radius ↔
      -(radius : Int) ≤ d ∧ d ≤ (radius : Int) := by
  unfold offsetRange
  rw [List.mem_map]
  constructor
  · rintro ⟨i, hi, hd⟩
    rw [List.mem_range] at hi
    omega
  · intro hh
    refine ⟨(d + radius).toNat, ?_, ?_⟩
    · rw [List.mem_range]; omega
    · omega

theorem resetAgents_visible (agents : List String) (c : Int × Int)
    (a : String) (x y : Int) :
    ∀ st : VisState,
    (agents.foldl (fun st2 ag => setVisible st2 ag c.1 c.2 false) st).visible
        a x y =
      if a ∈ agents ∧ x = c.1 ∧ y = c.2 then false
      else st.visible a x y := by
  induction agents with
  | nil => intro st; simp
  | cons ag rest ih =>
    intro st
    rw [List.foldl_cons, ih]
    by_cases hmem : a ∈ rest ∧ x = c.1 ∧ y = c.2
    · simp [hmem]
    · rw [if_neg hmem, setVisible_visible]
      by_cases hag : a = ag ∧ x = c.1 ∧ y = c.2
      · rw [if_pos hag, if_pos ⟨List.mem_cons.mpr (Or.inl hag.1), hag.2⟩]
      · rw [if_neg hag, if_neg]
        rintro ⟨hm, hxy⟩
        rcases List.mem_cons.mp hm with h | h
        · exact hag ⟨h, hxy⟩
        · exact hmem ⟨h, hxy⟩

theorem resetAgents_explored (agents : List String) (c : Int × Int) :
    ∀ st : VisState,
    (agents.foldl (fun st2 ag => setVisible st2 ag c.1 c.2 false) st).explored
      = st.explored := by
  induction agents with
  | nil => intro st; rfl
  | cons ag rest ih =>
    intro st
    rw [List.foldl_cons, ih, setVisible_false_explored]

theorem resetVisibility_visible (w h : Nat) (agents : List String)
    (a : String) (x y : Int) :
    ∀ s : VisState,
    (resetVisibility w h agents s).visible a x y =
      if a ∈ agents ∧ (x, y) ∈ coordList w h then false
      else s.visible a x y := by
  unfold resetVisibility
  induction coordList w h with
  | nil => intro s; simp
  | cons c rest ih =>
    intro s
    rw [List.foldl_cons, ih]
    by_cases hrest : a ∈ agents ∧ (x, y) ∈ rest
    · simp [hrest]
    · rw [if_neg hrest, resetAgents_visible]
      by_cases hc : a ∈ agents ∧ x = c.1 ∧ y = c.2
      · rw [if_pos hc, if_pos]
        refine ⟨hc.1, List.mem_cons.mpr (Or.inl ?_)⟩
        obtain ⟨-, h1, h2⟩ := hc
        subst h1; subst h2; rfl
      · rw [if_neg hc, if_neg]
        rintro ⟨hm, hxy⟩
        rcases List.mem_cons.mp hxy with hh | hh
        · exact hc ⟨hm, congrArg Prod.fst hh, congrArg Prod.snd hh⟩
        · exact hrest ⟨hm, hh⟩

theorem resetVisibility_explored (w h : Nat) (agents : List String) :
    ∀ s : VisState,
    (resetVisibility w h agents s).explored = s.explored := by
  unfold resetVisibility
  induction coordList w h with
  | nil => intro s; rfl
  | cons c rest ih =>
    intro s
    rw [List.foldl_cons, ih, resetAgents_explored]

theorem revealRow_visible (w h : Nat) (cx cy : Int) (radius : Nat)
    (ag : String) (dx : Int) (a : String) (x y : Int) :
    ∀ (dys : List Int) (s : VisState),
    (revealRow w h cx cy radius ag dx dys s).visible a x y = true ↔
      s.visible a x y = true ∨
      (a = ag ∧ ∃ dy ∈ dys, dx.natAbs + dy.natAbs ≤ radius ∧
        inBounds w h (cx + dx) (cy + dy) = true ∧
        x = cx + dx ∧ y = cy + dy) := by
  intro dys
  induction dys with
  | nil => intro s; simp [revealRow]
  | cons dy rest ih =>
    intro s
    have hcons : revealRow w h cx cy radius ag dx (dy :: rest) s =
        revealRow w h cx cy radius ag dx rest
          (if dx.natAbs + dy.natAbs ≤ radius then
            if inBounds w h (cx + dx) (cy + dy) then
              setVisible s ag (cx + dx) (cy + dy) true
            else s
          else s) := rfl
    rw [hcons, ih]
    by_cases h1 : dx.natAbs + dy.natAbs ≤ radius
    · by_cases h2 : inBounds w h (cx + dx) (cy + dy) = true
      · rw [if_pos h1, if_pos h2, setVisible_visible]
        by_cases h3 : a = ag ∧ x = cx + dx ∧ y = cy + dy
        · rw [if_pos h3]
          simp only [List.mem_cons]
          constructor
          · intro _
            exact Or.inr ⟨h3.1, dy, Or.inl rfl, h1, h2, h3.2.1, h3.2.2⟩
          · intro _
            exact Or.inl trivial
        · rw [if_neg h3]
          simp only [List.mem_cons]
          constructor
          · rintro (hv | ⟨hag, d2, hmem, hc⟩)
            · exact Or.inl hv
            · exact Or.inr ⟨hag, d2, Or.inr hmem, hc⟩
          · rintro (hv | ⟨hag, d2, hmem, hc⟩)
            · exact Or.inl hv
            · rcases hmem with hd | hmem
              · subst hd
                exact absurd ⟨hag, hc.2.2.1, hc.2.2.2⟩ h3
              · exact Or.inr ⟨hag, d2, hmem, hc⟩
      · rw [if_pos h1, if_neg h2]
        simp only [List.mem_cons]
        constructor
        · rintro (hv | ⟨hag, d2, hmem, hc⟩)
          · exact Or.inl hv
          · exact Or.inr ⟨hag, d2, Or.inr hmem, hc⟩
        · rintro (hv | ⟨hag, d2, hmem, hc⟩)
          · exact Or.inl hv
          · rcases hmem with hd | hmem
            · subst hd
              exact absurd hc.2.1 h2
            · exact Or.inr ⟨hag, d2, hmem, hc⟩
    · rw [if_neg h1]
      simp only [List.mem_cons]
      constructor
      · rintro (hv | ⟨hag, d2, hmem, hc⟩)
        · exact Or.inl hv
        · exact Or.inr ⟨hag, d2, Or.inr hmem, hc⟩
      · rintro (hv | ⟨hag, d2, hmem, hc⟩)
        · exact Or.inl hv
        · rcases hmem with hd | hmem
          · subst hd
            exact absurd hc.1 h1
          · exact Or.inr ⟨hag, d2, hmem, hc⟩

theorem reveal_area_visible (w h : Nat) (cx cy : Int) (radius : Nat)
    (ag : String) (a : String) (x y : Int) (s : VisState) :
    (reveal_area w h cx cy radius ag s).visible a x y = true ↔
      s.visible a x y = true ∨
      (a = ag ∧ inBounds w h x y = true ∧ manhattan cx cy x y ≤ radius) := by
  have main : ∀ (dxs : List Int) (st : VisState),
      ((dxs.foldl
        (fun st2 dx => revealRow w h cx cy radius ag dx (offsetRange radius) st2)
        st)).visible a x y = true ↔
      st.visible a x y = true ∨
      (a = ag ∧ ∃ dx ∈ dxs, ∃ dy ∈ offsetRange radius,
        dx.natAbs + dy.natAbs ≤ radius ∧
        inBounds w h (cx + dx) (cy + dy) = true ∧
        x = cx + dx ∧ y = cy + dy) := by
    intro dxs
    induction dxs with
    | nil => intro st; simp
    | cons dx rest ih =>
      intro st
      rw [List.foldl_cons, ih, revealRow_visible]
      simp only [List.mem_cons]
      constructor
      · rintro ((hv | ⟨hag, dy, hmem, hc⟩) | ⟨hag, d2, hmem2, dy, hmem, hc⟩)
        · exact Or.inl hv
        · exact Or.inr ⟨hag, dx, Or.inl rfl, dy, hmem, hc⟩
        · exact Or.inr ⟨hag, d2, Or.inr hmem2, dy, hmem, hc⟩
      · rintro (hv | ⟨hag, d2, hmem2, dy, hmem, hc⟩)
        · exact Or.inl (Or.inl hv)
        · rcases hmem2 with hd | hmem2
          · subst hd
            exact Or.inl (Or.inr ⟨hag, dy, hmem, hc⟩)
          · exact Or.inr ⟨hag, d2, hmem2, dy, hmem, hc⟩
  unfold reveal_area
  rw [main]
  constructor
  · rintro (hv | ⟨hag, dx, hdx, dy, hdy, hr, hb, hx, hy⟩)
    · exact Or.inl hv
    · subst hx; subst hy
      refine Or.inr ⟨hag, hb, ?_⟩
      have e1 : (cx - (cx + dx)).natAbs = dx.natAbs := by omega
      have e2 : (cy - (cy + dy)).natAbs = dy.natAbs := by omega
      unfold manhattan
      omega
  · rintro (hv | ⟨hag, hb, hd⟩)
    · exact Or.inl hv
    · unfold manhattan at hd
      refine Or.inr ⟨hag, x - cx, ?_, y - cy, ?_, by omega, ?_, by ring, by ring⟩
      · rw [mem_offsetRange]; omega
      · rw [mem_offsetRange]; omega
      · have hx : cx + (x - cx) = x := by ring
        have hy : cy + (y - cy) = y := by ring
        rw [hx, hy]; exact hb

theorem revealUnits_visible (w h : Nat) (ag : String) (a : String)
    (x y : Int) :
    ∀ (us : List Unit) (s : VisState),
    (revealUnits w h ag us s).visible a x y = true ↔
      s.visible a x y = true ∨
      (a = ag ∧ inBounds w h x y = true ∧
        ∃ u ∈ us, 0 < u.stats.health ∧
          manhattan u.x u.y x y ≤ u.stats.sight_range) := by
  intro us
  induction us with
  | nil => intro s; simp [revealUnits]
  | cons u rest ih =>
    intro s
    have hcons : revealUnits w h ag (u :: rest) s =
        revealUnits w h ag rest
          (if 0 < u.stats.health then
            reveal_area w h u.x u.y u.stats.sight_range ag s
          else s) := rfl
    rw [hcons, ih]
    by_cases hu : 0 < u.stats.health
    · rw [if_pos hu, reveal_area_visible]
      simp only [List.mem_cons]
      constructor
      · rintro ((hv | ⟨hag, hb, hd⟩) | ⟨hag, hb, u2, hmem, hc⟩)
        · exact Or.inl hv
        · exact Or.inr ⟨hag, hb, u, Or.inl rfl, hu, hd⟩
        · exact Or.inr ⟨hag, hb, u2, Or.inr hmem, hc⟩
      · rintro (hv | ⟨hag, hb, u2, hmem, hc⟩)
        · exact Or.inl (Or.inl hv)
        · rcases hmem with hd | hmem
          · subst hd
            exact Or.inl (Or.inr ⟨hag, hb, hc.2⟩)
          · exact Or.inr ⟨hag, hb, u2, hmem, hc⟩
    · rw [if_neg hu]
      simp only [List.mem_cons]
      constructor
      · rintro (hv | ⟨hag, hb, u2, hmem, hc⟩)
        · exact Or.inl hv
        · exact Or.inr ⟨hag, hb, u2, Or.inr hmem, hc⟩
      · rintro (hv | ⟨hag, hb, u2, hmem, hc⟩)
        · exact Or.inl hv
        · rcases hmem with hd | hmem
          · subst hd
            exact absurd hc.1 hu
          · exact Or.inr ⟨hag, hb, u2, hmem, hc⟩

theorem revealFactions_visible (w h : Nat) (a : String) (x y : Int) :
    ∀ (fs : List Faction) (s : VisState),
    (revealFactions w h fs s).visible a x y = true ↔
      s.visible a x y = true ∨
      (inBounds w h x y = true ∧
        ∃ f ∈ fs, f.owner_id = a ∧ ∃ u ∈ f.units, 0 < u.stats.health ∧
          manhattan u.x u.y x y ≤ u.stats.sight_range) := by
  intro fs
  induction fs with
  | nil => intro s; simp [revealFactions]
  | cons f rest ih =>
    intro s
    have hcons : revealFactions w h (f :: rest) s =
        revealFactions w h rest (revealUnits w h f.owner_id f.units s) := rfl
    rw [hcons, ih, revealUnits_visible]
    simp only [List.mem_cons]
    constructor
    · rintro ((hv | ⟨hag, hb, u, hmem, hc⟩) | ⟨hb, f2, hmem2, hag, hcu⟩)
      · exact Or.inl hv
      · exact Or.inr ⟨hb, f, Or.inl rfl, hag.symm, u, hmem, hc⟩
      · exact Or.inr ⟨hb, f2, Or.inr hmem2, hag, hcu⟩
    · rintro (hv | ⟨hb, f2, hmem2, hag, hcu⟩)
      · exact Or.inl (Or.inl hv)
      · rcases hmem2 with hd | hmem2
        · subst hd
          exact Or.inl (Or.inr ⟨hag.symm, hb, hcu⟩)
        · exact Or.inr ⟨hb, f2, hmem2, hag, hcu⟩

/-- Claim C3.  Immediately after a full visibility recompute, a tile is
visible to an agent owning a faction iff some living unit of that
agent's faction is within its own sight range of the tile (Manhattan
distance), for every in-bounds tile: the recompute first resets every
tile's visible flag to false for every agent, then reveals each
qualifying tile for the owning agent. -/
theorem update_visibility_spec (w h : Nat) (factions : List Faction)
    (s : VisState) (a : String) (x y : Int)
    (ha : a ∈ factions.map Faction.owner_id)
    (hx : inBounds w h x y = true) :
    (update_visibility w h factions s).visible a x y = true ↔
      ∃ f ∈ factions, f.owner_id = a ∧ ∃ u ∈ f.units, 0 < u.stats.health ∧
        manhattan u.x u.y x y ≤ u.stats.sight_range := by
  unfold update_visibility
  rw [revealFactions_visible, resetVisibility_visible]
  rw [if_pos ⟨ha, (mem_coordList w h x y).mpr hx⟩]
  simp only [Bool.false_eq_true, false_or]
  constructor
  · rintro ⟨-, hrest⟩; exact hrest
  · intro hrest; exact ⟨hx, hrest⟩

/-- Witness for C3 on a concrete 3x3 state: a single faction with one
living unit of sight range 1 at (1,1); the tile (1,0) is revealed for
the owner while visibility was previously everywhere true for the other
agent only.  Both directions of the iff are exercised via the
characterization at two tiles. -/
theorem update_visibility_spec_witness :
    let u : Unit := ⟨7, "Scout", "f1", "alice", 1, 1,
      ⟨10, 10, 2, 1, 2, 1, 1⟩, [], false, false, false, [], 0, 0⟩
    let f : Faction := ⟨"f1", "alice", "Faction of alice", [], [],
      [u], [], [], 1, 0⟩
    let s0 : VisState := ⟨fun _ _ _ => false, fun _ _ _ => false⟩
    (update_visibility 3 3 [f] s0).visible "alice" 1 0 = true ∧
    ¬ (update_visibility 3 3 [f] s0).visible "alice" 2 2 = true := by
  intro u f s0
  constructor
  · rw [update_visibility_spec 3 3 [f] s0 "alice" 1 0 (by decide) (by decide)]
    decide
  · rw [update_visibility_spec 3 3 [f] s0 "alice" 2 2 (by decide) (by decide)]
    decide

/-- Claim C10.  Explored flags are monotone: `Tile.set_visible` with
`False` leaves every explored flag unchanged, `set_visible` with `True`
sets explored together with visible, and the full per-round visibility
recompute never clears an explored flag, so each agent's explored
region only grows. -/
theorem explored_monotone :
    (∀ (s : VisState) (a : String) (x y : Int),
      (setVisible s a x y false).explored = s.explored) ∧
    (∀ (s : VisState) (a : String) (x y : Int),
      (setVisible s a x y true).explored a x y = true ∧
      (setVisible s a x y true).visible a x y = true) ∧
    (∀ (w h : Nat) (factions : List Faction) (s : VisState)
      (a : String) (x y : Int),
      s.explored a x y = true →
      (update_visibility w h factions s).explored a x y = true) := by
  refine ⟨fun s a x y => rfl, fun s a x y => ⟨by simp [setVisible],
    by simp [setVisible]⟩, ?_⟩
  intro w h factions s a x y hexp
  unfold update_visibility
  have hreset :
      (resetVisibility w h (factions.map Faction.owner_id) s).explored a x y
        = true := by
    rw [resetVisibility_explored]; exact hexp
  have mono_set : ∀ (st : VisState) (ag : String) (x2 y2 : Int) (v : Bool),
      st.explored a x y = true →
      (setVisible st ag x2 y2 v).explored a x y = true := by
    intro st ag x2 y2 v hst
    cases v
    · exact hst
    · have hred : (setVisible st ag x2 y2 true).explored a x y =
          if a = ag ∧ x = x2 ∧ y = y2 then true else st.explored a x y := rfl
      rw [hred]
      by_cases hc : a = ag ∧ x = x2 ∧ y = y2
      · rw [if_pos hc]
      · rw [if_neg hc]; exact hst
  have mono_row : ∀ (cx cy : Int) (r : Nat) (ag : String) (dx : Int)
      (dys : List Int) (st : VisState),
      st.explored a x y = true →
      (revealRow w h cx cy r ag dx dys st).explored a x y = true := by
    intro cx cy r ag dx dys
    induction dys with
    | nil => intro st hst; exact hst
    | cons dy rest ih =>
      intro st hst
      have hcons : revealRow w h cx cy r ag dx (dy :: rest) st =
          revealRow w h cx cy r ag dx rest
            (if dx.natAbs + dy.natAbs ≤ r then
              if inBounds w h (cx + dx) (cy + dy) then
                setVisible st ag (cx + dx) (cy + dy) true
              else st
            else st) := rfl
      rw [hcons]
      apply ih
      by_cases h1 : dx.natAbs + dy.natAbs ≤ r
      · by_cases h2 : inBounds w h (cx + dx) (cy + dy) = true
        · rw [if_pos h1, if_pos h2]
          exact mono_set st ag (cx + dx) (cy + dy) true hst
        · rw [if_pos h1, if_neg h2]; exact hst
      · rw [if_neg h1]; exact hst
  have mono_area : ∀ (cx cy : Int) (r : Nat) (ag : String) (st : VisState),
      st.explored a x y = true →
      (reveal_area w h cx cy r ag st).explored a x y = true := by
    intro cx cy r ag
    have gen : ∀ (dxs : List Int) (st : VisState),
        st.explored a x y = true →
        ((dxs.foldl
          (fun st2 dx => revealRow w h cx cy r ag dx (offsetRange r) st2)
          st)).explored a x y = true := by
      intro dxs
      induction dxs with
      | nil => intro st hst; exact hst
      | cons dx rest ih =>
        intro st hst
        rw [List.foldl_cons]
        exact ih _ (mono_row cx cy r ag dx (offsetRange r) st hst)
    intro st hst
    exact gen (offsetRange r) st hst
  have mono_units : ∀ (ag : String) (us : List Unit) (st : VisState),
      st.explored a x y = true →
      (revealUnits w h ag us st).explored a x y = true := by
    intro ag us
    induction us with
    | nil => intro st hst; exact hst
    | cons u rest ih =>
      intro st hst
      have hcons : revealUnits w h ag (u :: rest) st =
          revealUnits w h ag rest
            (if 0 < u.stats.health then
              reveal_area w h u.x u.y u.stats.sight_range ag st
            else st) := rfl
      rw [hcons]
      apply ih
      by_cases hu : 0 < u.stats.health
      · rw [if_pos hu]
        exact mono_area u.x u.y u.stats.sight_range ag st hst
      · rw [if_neg hu]; exact hst
  have mono_factions : ∀ (fs : List Faction) (st : VisState),
      st.explored a x y = true →
      (revealFactions w h fs st).explored a x y = true := by
    intro fs
    induction fs with
    | nil => intro st hst; exact hst
    | cons f rest ih =>
      intro st hst
      have hcons : revealFactions w h (f :: rest) st =
          revealFactions w h rest (revealUnits w h f.owner_id f.units st) :=
        rfl
      rw [hcons]
      exact ih _ (mono_units f.owner_id f.units st hst)
  exact mono_factions factions _ hreset

/-- Witness for C10 at a concrete state: an explored flag set before
the recompute survives it even though the tile becomes invisible. -/
theorem explored_monotone_witness :
    let s0 : VisState :=
      ⟨fun _ _ _ => false,
       fun a2 x2 y2 => decide (a2 = "alice" ∧ x2 = 2 ∧ y2 = 2)⟩
    let f : Faction := ⟨"f1", "alice", "Faction of alice", [], [],
      [], [], [], 0, 0⟩
    (update_visibility 3 3 [f] s0).explored "alice" 2 2 = true :=
  (explored_monotone.2.2) 3 3
    [⟨"f1", "alice", "Faction of alice", [], [], [], [], [], 0, 0⟩]
    ⟨fun _ _ _ => false,
     fun a2 x2 y2 => decide (a2 = "alice" ∧ x2 = 2 ∧ y2 = 2)⟩
    "alice" 2 2 (by decide)

/-!
Turn rotation (final_project/core/game_state.py, lines 209-240).
`advance_turn` touches only the phase, the current player index, the
turn order list and the turn counter; `_process_end_of_round` mutates
only the factions and the tile grid (resource generation, flag reset,
visibility), so that part of the state is abstracted into a `world`
component transformed by an arbitrary `endOfRound` function.  The
wall-clock field `last_update_at` is not modelled.
-/

/-- `GamePhase` (game_state.py, lines 17-22). -/
inductive GamePhase where
  | setup
  | balancing
  | playing
  | ended
deriving Repr, DecidableEq

/-- The turn-rotation part of `GameState`. -/
structure TurnState (W : Type) where
  phase : GamePhase
  current_player_index : Nat
  player_turn_order : List String
  turn_number : Nat
  world : W

/-- `GameState.get_current_player` (game_state.py, lines 209-215). -/
def get_current_player {W : Type} (s : TurnState W) : Option String :=
  if s.phase = GamePhase.playing ∧
      s.current_player_index < s.player_turn_order.length then
    s.player_turn_order[s.current_player_index]?
  else none

/-- `GameState.advance_turn` (game_state.py, lines 217-231): refuse
outside the Playing phase; increment the player index; on passing the
end of the turn order, wrap to player 0, increment the turn number and
run the end-of-round effects. -/
def advance_turn {W : Type} (endOfRound : W → W) (s : TurnState W) :
    Bool × TurnState W :=
  if s.phase ≠ GamePhase.playing then (false, s)
  else
    let i := s.current_player_index + 1
    if s.player_turn_order.length ≤ i then
      (true,
        { s with
          current_player_index := 0,
          turn_number := s.turn_number + 1,
          world := endOfRound s.world })
    else (true, { s with current_player_index := i })

/-- `advance_turn` called `n` times in sequence. -/
def advanceIter {W : Type} (endOfRound : W → W) :
    Nat → TurnState W → TurnState W
  | 0, s => s
  | n + 1, s => advanceIter endOfRound n (advance_turn endOfRound s).2

theorem advanceIter_closed {W : Type} (e : W → W) (n : Nat) :
    ∀ (s : TurnState W),
    s.phase = GamePhase.playing →
    s.current_player_index < s.player_turn_order.length →
    advanceIter e n s =
      { phase := GamePhase.playing,
        current_player_index :=
          (s.current_player_index + n) % s.player_turn_order.length,
        player_turn_order := s.player_turn_order,
        turn_number := s.turn_number +
          (s.current_player_index + n) / s.player_turn_order.length,
        world :=
          e^[(s.current_player_index + n) / s.player_turn_order.length]
            s.world } := by
  induction n with
  | zero =>
    rintro ⟨ph, i, ord, t, wd⟩ h1 h2
    simp only at h1 h2
    subst h1
    simp only [advanceIter, Nat.add_zero]
    rw [Nat.mod_eq_of_lt h2, Nat.div_eq_of_lt h2]
    simp
  | succ n ih =>
    rintro ⟨ph, i, ord, t, wd⟩ h1 h2
    simp only at h1 h2
    subst h1
    have hP : 0 < ord.length := Nat.lt_of_le_of_lt (Nat.zero_le i) h2
    show advanceIter e n (advance_turn e ⟨GamePhase.playing, i, ord, t, wd⟩).2 = _
    unfold advance_turn
    rw [if_neg (by simp)]
    simp only
    by_cases hwrap : ord.length ≤ i + 1
    · have hiP : i + 1 = ord.length := Nat.le_antisymm h2 hwrap
      rw [if_pos hwrap]
      rw [ih ⟨GamePhase.playing, 0, ord, t + 1, e wd⟩ rfl hP]
      simp only [TurnState.mk.injEq, Nat.zero_add]
      have hrw : i + (n + 1) = n + ord.length := by omega
      refine ⟨trivial, ?_, trivial, ?_, ?_⟩
      · rw [hrw, Nat.add_mod_right]
      · rw [hrw, Nat.add_div_right n hP]
        omega
      · rw [hrw, Nat.add_div_right n hP,
          Function.iterate_succ_apply]
    · have hlt : i + 1 < ord.length := Nat.lt_of_not_le hwrap
      rw [if_neg hwrap]
      rw [ih ⟨GamePhase.playing, i + 1, ord, t, wd⟩ rfl hlt]
      simp only [TurnState.mk.injEq]
      have hrw : i + 1 + n = i + (n + 1) := by omega
      exact ⟨trivial, by rw [hrw], trivial, by rw [hrw], by rw [hrw]⟩

/-- Claim C6.  With the game in the Playing phase and a valid current
player index, advancing the turn `P` times (`P` the number of agents in
the turn order) returns the rotation to the original player, and the
turn counter is incremented exactly once over those `P` calls — only on
the wrap from the last player back to the first, never mid-rotation. -/
theorem advance_turn_rotation {W : Type} (e : W → W) (s : TurnState W)
    (h1 : s.phase = GamePhase.playing)
    (h2 : s.current_player_index < s.player_turn_order.length) :
    (advanceIter e s.player_turn_order.length s).current_player_index =
      s.current_player_index ∧
    (advanceIter e s.player_turn_order.length s).player_turn_order =
      s.player_turn_order ∧
    get_current_player (advanceIter e s.player_turn_order.length s) =
      get_current_player s ∧
    (advanceIter e s.player_turn_order.length s).turn_number =
      s.turn_number + 1 ∧
    (∀ k, k ≤ s.player_turn_order.length →
      (advanceIter e k s).turn_number =
        if s.current_player_index + k < s.player_turn_order.length then
          s.turn_number
        else s.turn_number + 1) := by
  have hP : 0 < s.player_turn_order.length :=
    Nat.lt_of_le_of_lt (Nat.zero_le _) h2
  have hmod : (s.current_player_index + s.player_turn_order.length) %
      s.player_turn_order.length = s.current_player_index := by
    rw [Nat.add_mod_right, Nat.mod_eq_of_lt h2]
  have hdiv : (s.current_player_index + s.player_turn_order.length) /
      s.player_turn_order.length = 1 := by
    rw [Nat.add_div_right _ hP, Nat.div_eq_of_lt h2]
  have hfull := advanceIter_closed e s.player_turn_order.length s h1 h2
  refine ⟨?_, ?_, ?_, ?_, ?_⟩
  · rw [hfull]; simp [hmod]
  · rw [hfull]
  · rw [hfull]
    unfold get_current_player
    simp [hmod, h1]
  · rw [hfull]; simp [hdiv]
  · intro k hk
    rw [advanceIter_closed e k s h1 h2]
    simp only
    by_cases hlt : s.current_player_index + k < s.player_turn_order.length
    · rw [if_pos hlt, Nat.div_eq_of_lt hlt]
      omega
    · rw [if_neg hlt]
      have : (s.current_player_index + k) / s.player_turn_order.length = 1 :=
        Nat.div_eq_of_lt_le (by omega) (by omega)
      rw [this]

/-- Witness for C6: three players, starting mid-rotation at index 1 of
turn 4; three advances return to player "b" with the counter at 5, and
no increment happens before the wrap. -/
theorem advance_turn_rotation_witness :
    (advanceIter (fun (n : Nat) => n + 7) 3
      ⟨GamePhase.playing, 1, ["a", "b", "c"], 4, 0⟩).current_player_index
      = 1 ∧
    (advanceIter (fun (n : Nat) => n + 7) 3
      ⟨GamePhase.playing, 1, ["a", "b", "c"], 4, 0⟩).turn_number = 5 ∧
    (advanceIter (fun (n : Nat) => n + 7) 1
      ⟨GamePhase.playing, 1, ["a", "b", "c"], 4, 0⟩).turn_number = 4 := by
  have h := advance_turn_rotation (fun (n : Nat) => n + 7)
    ⟨GamePhase.playing, 1, ["a", "b", "c"], 4, 0⟩ rfl (by decide)
  refine ⟨h.1, h.2.2.2.1, ?_⟩
  have hk := h.2.2.2.2 1 (by decide)
  simpa using hk

/-!
Ability registry (project_abandoned/abilities/base.py).  An ability's
`apply` may mutate the shared context (working damage/defense) and
return an effect dictionary, or raise; the effect payload is opaque to
the registry, so it is a type parameter `E`.  A Python call that either
returns or raises is modelled as `PyResult`.
-/

/-- A Python call result: a returned value or a raised exception. -/
inductive PyResult (α : Type) where
  | ret (a : α)
  | exn (msg : String)
deriving Repr, DecidableEq

/-- `AbilityType` (abilities/base.py, lines 11-18). -/
inductive AbilityType where
  | passive
  | on_attack
  | on_defend
  | on_move
  | on_turn
  | active
deriving Repr, DecidableEq

/-- `AbilityContext` (abilities/base.py, lines 20-46); the `game_state`
back-reference is not part of the registry semantics and is omitted. -/
structure AbilityContext where
  owner : Unit
  target : Option Unit
  action_type : String
  phase : String
  base_damage : Int
  base_defense : Int
  target_x : Int
  target_y : Int
  distance : Int
  turn_number : Nat
  resources : Dict

/-- `Ability` (abilities/base.py, lines 48-74): `can_apply` decides the
precondition, `apply` produces the effect and the (possibly mutated)
context, or raises. -/
structure Ability (E : Type) where
  name : String
  description : String
  ability_type : AbilityType
  is_active : Bool
  can_apply : AbilityContext → Bool
  apply : AbilityContext → PyResult (E × AbilityContext)

/-- The registry's `_abilities` dict: string id to ability, in
registration order. -/
abbrev AbilityRegistry (E : Type) := List (String × Ability E)

/-- `AbilityRegistry.get` (abilities/base.py, lines 93-95). -/
def registryGet {E : Type} (reg : AbilityRegistry E) (ability_id : String) :
    Option (Ability E) :=
  (reg.find? (fun p => p.1 == ability_id)).map Prod.snd

/-- The aggregate results dictionary of `execute_abilities`:
`{"applied": [...], "failed": [...], "effects": {...}}` with `failed`
entries `{"ability": id, "error": message}`. -/
structure ExecResults (E : Type) where
  applied : List String
  failed : List (String × String)
  effects : List (String × E)

/-- The loop of `AbilityRegistry.execute_abilities` (abilities/base.py,
lines 114-135): look each id up, skip unknown ids and ids whose
`can_apply` is false, record a successful `apply` in `applied` and
`effects`, record a raising `apply` in `failed` and continue. -/
def executeLoop {E : Type} (reg : AbilityRegistry E) :
    List String → ExecResults E → AbilityContext →
    ExecResults E × AbilityContext
  | [], acc, context => (acc, context)
  | aid :: rest, acc, context =>
    match registryGet reg aid with
    | some ability =>
      if ability.can_apply context then
        match ability.apply context with
        | .ret (effect, context2) =>
          executeLoop reg rest
            { acc with
              applied := acc.applied ++ [aid],
              effects := acc.effects ++ [(aid, effect)] }
            context2
        | .exn e =>
          executeLoop reg rest
            { acc with failed := acc.failed ++ [(aid, e)] } context
      else executeLoop reg rest acc context
    | none => executeLoop reg rest acc context

/-- `AbilityRegistry.execute_abilities`. -/
def execute_abilities {E : Type} (reg : AbilityRegistry E)
    (ability_ids : List String) (context : AbilityContext) :
    ExecResults E × AbilityContext :=
  executeLoop reg ability_ids ⟨[], [], []⟩ context

theorem executeLoop_acc {E : Type} (reg : AbilityRegistry E)
    (ids : List String) :
    ∀ (acc : ExecResults E) (context : AbilityContext),
    executeLoop reg ids acc context =
      (⟨acc.applied ++ (executeLoop reg ids ⟨[], [], []⟩ context).1.applied,
        acc.failed ++ (executeLoop reg ids ⟨[], [], []⟩ context).1.failed,
        acc.effects ++ (executeLoop reg ids ⟨[], [], []⟩ context).1.effects⟩,
       (executeLoop reg ids ⟨[], [], []⟩ context).2) := by
  induction ids with
  | nil => intro acc context; simp [executeLoop]
  | cons aid rest ih =>
    intro acc context
    match hget : registryGet reg aid with
    | some ability =>
      simp only [executeLoop, hget]
      by_cases hcan : ability.can_apply context = true
      · rw [if_pos hcan, if_pos hcan]
        match happ : ability.apply context with
        | .ret (effect, context2) =>
          simp only
          rw [ih { applied := [] ++ [aid], failed := [],
                   effects := [] ++ [(aid, effect)] } context2,
              ih { applied := acc.applied ++ [aid], failed := acc.failed,
                   effects := acc.effects ++ [(aid, effect)] } context2]
          simp
        | .exn e =>
          simp only
          rw [ih { applied := [], failed := [] ++ [(aid, e)],
                   effects := [] } context,
              ih { applied := acc.applied, failed := acc.failed ++ [(aid, e)],
                   effects := acc.effects } context]
          simp
      · rw [if_neg hcan, if_neg hcan]
        rw [ih acc context, ih ⟨[], [], []⟩ context]
    | none =>
      simp only [executeLoop, hget]
      rw [ih acc context, ih ⟨[], [], []⟩ context]

/-- Counterexample for C8 as stated: an ability whose precondition does
not hold is NOT recorded in the `failed` list — it is silently skipped.
Concretely, a registry holding one ability with a false `can_apply`
produces empty `applied`, `failed` and `effects` aggregates. -/
theorem failed_precondition_not_recorded :
    let u0 : Unit := ⟨0, "U", "f", "p", 0, 0, ⟨1, 1, 1, 1, 1, 1, 1⟩,
      [], false, false, false, [], 0, 0⟩
    let ctx0 : AbilityContext := ⟨u0, none, "attack", "gameplay",
      0, 0, 0, 0, 0, 0, []⟩
    let ab : Ability Nat := ⟨"guard", "never applies", .passive, true,
      fun _ => false, fun c => .ret (0, c)⟩
    (execute_abilities [("guard", ab)] ["guard"] ctx0).1.failed = [] ∧
    (execute_abilities [("guard", ab)] ["guard"] ctx0).1.applied = [] := by
  intro u0 ctx0 ab
  exact ⟨rfl, rfl⟩

/-- Claim C8, amended.  `execute_abilities` processes the given ids in
order: an id not present in the registry is never found and contributes
no effect; an id whose registered ability's `can_apply` is false is
silently skipped (recorded in neither aggregate); an `apply` that
raises is recorded in the `failed` list and does not prevent the
remaining ids from being applied; a successful `apply` is recorded in
`applied` and `effects` and threads its mutated context to the rest. -/
theorem execute_abilities_spec {E : Type} (reg : AbilityRegistry E)
    (aid : String) (rest : List String) (context : AbilityContext) :
    (registryGet reg aid = none →
      execute_abilities reg (aid :: rest) context =
        execute_abilities reg rest context) ∧
    (∀ ability, registryGet reg aid = some ability →
      ability.can_apply context = false →
      execute_abilities reg (aid :: rest) context =
        execute_abilities reg rest context) ∧
    (∀ ability e, registryGet reg aid = some ability →
      ability.can_apply context = true →
      ability.apply context = .exn e →
      execute_abilities reg (aid :: rest) context =
        (⟨(execute_abilities reg rest context).1.applied,
          (aid, e) :: (execute_abilities reg rest context).1.failed,
          (execute_abilities reg rest context).1.effects⟩,
         (execute_abilities reg rest context).2)) ∧
    (∀ ability effect context2, registryGet reg aid = some ability →
      ability.can_apply context = true →
      ability.apply context = .ret (effect, context2) →
      execute_abilities reg (aid :: rest) context =
        (⟨aid :: (execute_abilities reg rest context2).1.applied,
          (execute_abilities reg rest context2).1.failed,
          (aid, effect) :: (execute_abilities reg rest context2).1.effects⟩,
         (execute_abilities reg rest context2).2)) := by
  refine ⟨?_, ?_, ?_, ?_⟩
  · intro hget
    unfold execute_abilities
    simp only [executeLoop, hget]
  · intro ability hget hcan
    unfold execute_abilities
    simp only [executeLoop, hget]
    rw [if_neg (by simp [hcan])]
  · intro ability e hget hcan happ
    unfold execute_abilities
    simp only [executeLoop, hget]
    rw [if_pos hcan, happ]
    simp only
    rw [executeLoop_acc reg rest
      { applied := [], failed := [] ++ [(aid, e)], effects := [] } context]
    simp
  · intro ability effect context2 hget hcan happ
    unfold execute_abilities
    simp only [executeLoop, hget]
    rw [if_pos hcan, happ]
    simp only
    rw [executeLoop_acc reg rest
      { applied := [] ++ [aid], failed := [],
        effects := [] ++ [(aid, effect)] } context2]
    simp

/-- Witness for the amended C8: a raising ability followed by a
succeeding one — the failure is recorded and the later ability is still
applied, with its effect collected. -/
theorem execute_abilities_spec_witness :
    let u0 : Unit := ⟨0, "U", "f", "p", 0, 0, ⟨1, 1, 1, 1, 1, 1, 1⟩,
      [], false, false, false, [], 0, 0⟩
    let ctx0 : AbilityContext := ⟨u0, none, "attack", "gameplay",
      10, 0, 0, 0, 0, 0, []⟩
    let bad : Ability Nat := ⟨"bad", "raises", .on_attack, true,
      fun _ => true, fun _ => .exn "boom"⟩
    let good : Ability Nat := ⟨"good", "applies", .on_attack, true,
      fun _ => true, fun c => .ret (25, { c with base_damage := 25 })⟩
    let reg : AbilityRegistry Nat := [("bad", bad), ("good", good)]
    (execute_abilities reg ["bad", "good"] ctx0).1.applied = ["good"] ∧
    (execute_abilities reg ["bad", "good"] ctx0).1.failed =
      [("bad", "boom")] ∧
    (execute_abilities reg ["bad", "good"] ctx0).2.base_damage = 25 := by
  intro u0 ctx0 bad good reg
  have h := (execute_abilities_spec reg "bad" ["good"] ctx0).2.2.1
    bad "boom" rfl rfl rfl
  rw [h]
  exact ⟨rfl, rfl, rfl⟩

/-!
Victory checking (final_project/core/game_state.py, lines 294-314,
`GameState._check_victory_conditions`) and the main-loop reaction to a
winner (project_abandoned/core/game_engine.py, lines 186-213,
`GameEngine._run_main_game_loop`).
-/

/-- `MAX_TURNS` (config/game_config.py). -/
def MAX_TURNS : Nat := 10

/-- `VictoryCondition` (config/game_config.py). -/
inductive VictoryCondition where
  | elimination
  | resource
  | territory
  | time_limit
deriving Repr, DecidableEq

/-- `Faction.get_total_military_strength` (faction.py, lines 207-213). -/
def get_total_military_strength (f : Faction) : Nat :=
  f.units.foldl
    (fun acc u =>
      if 0 < u.stats.health then acc + (u.stats.attack + u.stats.defense)
      else acc)
    0

/-- The slice of `GameState` that victory checking reads: the
agent-id-to-faction map in insertion order, the enabled victory
conditions, the turn counter and the phase. -/
structure VicState where
  factions : List (String × Faction)
  victory_conditions : List VictoryCondition
  turn_number : Nat
  phase : GamePhase

/-- A faction counts as active when it has any units or buildings
(`if faction.units or faction.buildings`). -/
def is_active_faction (p : String × Faction) : Bool :=
  !p.2.units.isEmpty || !p.2.buildings.isEmpty

/-- Python `max(items, key=strength)`: the first item of maximal
strength (later items replace only on strictly greater key). -/
def argmaxStrength : List (String × Faction) → Option (String × Faction)
  | [] => none
  | p :: rest =>
    match argmaxStrength rest with
    | none => some p
    | some q =>
      if get_total_military_strength p.2 < get_total_military_strength q.2
      then some q else some p

/-- `GameState._check_victory_conditions` (game_state.py, lines
294-314): elimination victory when exactly one faction is active;
otherwise, when the time-limit condition is enabled and the turn limit
is reached, the faction with the highest military strength wins. -/
def check_victory_conditions (s : VicState) : Option String :=
  let active := (s.factions.filter is_active_faction).map Prod.fst
  if active.length = 1 then active.head?
  else if VictoryCondition.time_limit ∈ s.victory_conditions ∧
      MAX_TURNS ≤ s.turn_number then
    (argmaxStrength s.factions).map Prod.fst
  else none

/-- The victory check at the end of each round of
`GameEngine._run_main_game_loop` (game_engine.py, lines 207-213): a
winner sets the phase to Ended (and the loop then breaks). -/
def victoryCheckStep (s : VicState) : VicState :=
  match check_victory_conditions s with
  | some _ => { s with phase := GamePhase.ended }
  | none => s

/-- The guard of the main game loop (game_engine.py, lines 193-195):
`is_running and phase == PLAYING and turn_number < max_turns` with the
loop-local `max_turns = 100`. -/
def mainLoopGuard (is_running : Bool) (s : VicState) : Bool :=
  is_running && decide (s.phase = GamePhase.playing) &&
    decide (s.turn_number < 100)

/-- Claim C9.  When exactly one faction is still active (retains any
units or buildings), the victory check returns that faction's agent id
and the engine sets the phase to Ended, after which the main loop guard
is false so no further round runs; with two or more surviving factions
and the turn limit not reached, no winner is returned and the state —
in particular the phase — is unchanged. -/
theorem check_victory_spec (s : VicState) :
    (∀ aid f, s.factions.filter is_active_faction = [(aid, f)] →
      check_victory_conditions s = some aid ∧
      (victoryCheckStep s).phase = GamePhase.ended ∧
      (∀ r : Bool, mainLoopGuard r (victoryCheckStep s) = false)) ∧
    (2 ≤ (s.factions.filter is_active_faction).length →
      (VictoryCondition.time_limit ∈ s.victory_conditions →
        s.turn_number < MAX_TURNS) →
      check_victory_conditions s = none ∧ victoryCheckStep s = s) := by
  constructor
  · intro aid f hone
    have hchk : check_victory_conditions s = some aid := by
      unfold check_victory_conditions
      rw [hone]
      simp
    refine ⟨hchk, ?_, ?_⟩
    · unfold victoryCheckStep
      rw [hchk]
    · intro r
      unfold mainLoopGuard victoryCheckStep
      rw [hchk]
      simp
  · intro hlen hturn
    have hchk : check_victory_conditions s = none := by
      unfold check_victory_conditions
      rw [if_neg (by simp; omega), if_neg ?_]
      rintro ⟨htl, hge⟩
      exact absurd (hturn htl) (Nat.not_lt.mpr hge)
    refine ⟨hchk, ?_⟩
    unfold victoryCheckStep
    rw [hchk]

/-- Witness for C9: scenario (5) of the spec.  Faction B has lost its
last unit and building, so A wins by elimination and the phase ends;
beforehand, with both factions alive and the turn limit off, no winner
is declared and the state is untouched. -/
theorem check_victory_spec_witness :
    let ua : Unit := ⟨1, "A1", "fa", "A", 0, 0, ⟨10, 10, 3, 2, 1, 1, 3⟩,
      [], false, false, false, [], 0, 0⟩
    let fa : Faction := ⟨"fa", "A", "Faction A", [], [], [ua], [], [], 1, 0⟩
    let fb0 : Faction := ⟨"fb", "B", "Faction B", [], [], [ua], [], [], 1, 0⟩
    let fb : Faction := ⟨"fb", "B", "Faction B", [], [], [], [], [], 1, 1⟩
    let before : VicState :=
      ⟨[("A", fa), ("B", fb0)], [VictoryCondition.elimination], 3,
        GamePhase.playing⟩
    let after : VicState :=
      ⟨[("A", fa), ("B", fb)], [VictoryCondition.elimination], 4,
        GamePhase.playing⟩
    check_victory_conditions before = none ∧
    victoryCheckStep before = before ∧
    check_victory_conditions after = some "A" ∧
    (victoryCheckStep after).phase = GamePhase.ended ∧
    mainLoopGuard true (victoryCheckStep after) = false := by
  intro ua fa fb0 fb before after
  have hb := (check_victory_spec before).2 (by decide) (by intro h; decide)
  have ha := (check_victory_spec after).1 "A" fa (by decide)
  exact ⟨hb.1, hb.2, ha.1, ha.2.1, ha.2.2 true⟩

/-!
Turn manager (final_project/core/turn_manager.py).  The bounded-time
external decision call of `process_agent_turn` is modelled by its
outcome: a list of proposed actions, a timeout, or a raised exception.
`get_agent_view` (the only step before the decision await) builds a
fresh dictionary view and performs no write to the game state, so the
pre-decision state is passed through unchanged; the game-state type and
the registered action processors are parameters.  Wall-clock statistics
are not modelled.
-/

/-- `TurnResult` (turn_manager.py, lines 12-17). -/
inductive TurnResult where
  | success
  | timeout
  | error
  | game_ended
deriving Repr, DecidableEq

/-- `AgentAction` (agents/base_agent.py): the fields the turn manager
reads. -/
structure AgentAction where
  action_type : String
  agent_id : String
  parameters : Dict
deriving Repr, DecidableEq

/-- An action processor's result dictionary
(`{"success": bool, "error": ..., "critical_error": ...}`). -/
structure ActionResult where
  success : Bool
  error : Option String
  critical_error : Bool
deriving Repr, DecidableEq

/-- `TurnProcessingResult` (turn_manager.py, lines 19-27), minus the
wall-clock `processing_time`. -/
structure TurnProcessingResult where
  agent_id : String
  actions : List AgentAction
  execution_results : List ActionResult
  turn_result : TurnResult
  error_message : Option String
deriving Repr, DecidableEq

/-- The outcome of the time-boxed external decision call
(`await asyncio.wait_for(agent.process_turn(view), timeout)`). -/
inductive DecisionOutcome where
  | decided (actions : List AgentAction)
  | timed_out
  | raised (msg : String)
deriving Repr, DecidableEq

/-- `TurnManager._execute_action` (turn_manager.py, lines 149-182):
dispatch on the registered processor for the action type; a processor
exception is caught into an error result (any state mutations already
made persist); an unregistered action type yields an error result with
no state change. -/
def execute_action {G : Type}
    (processors : String → Option (AgentAction → G → PyResult ActionResult × G))
    (action : AgentAction) (g : G) : ActionResult × G :=
  match processors action.action_type with
  | some proc =>
    match proc action g with
    | (.ret r, g2) => (r, g2)
    | (.exn e, g2) =>
      (⟨false, some ("Processor error: " ++ e), false⟩, g2)
  | none =>
    (⟨false, some ("Unknown action type: " ++ action.action_type), false⟩, g)

/-- The sequential action-execution loop of `process_agent_turn`
(turn_manager.py, lines 85-96): execute each action in order, stop
early after a result flagged `critical_error`. -/
def execActions {G : Type}
    (processors : String → Option (AgentAction → G → PyResult ActionResult × G)) :
    List AgentAction → G → List ActionResult × G
  | [], g => ([], g)
  | action :: rest, g =>
    let r := execute_action processors action g
    if r.1.critical_error then ([r.1], r.2)
    else
      let rs := execActions processors rest r.2
      (r.1 :: rs.1, rs.2)

/-- `TurnManager.process_agent_turn` (turn_manager.py, lines 55-147):
on a decision, cap the action list at `max_actions` and execute
sequentially; on a timeout, a Timeout result with no actions, no
execution results and no state change; on any other exception, an Error
result likewise. -/
def process_agent_turn {G : Type}
    (processors : String → Option (AgentAction → G → PyResult ActionResult × G))
    (agent_id : String) (decision : DecisionOutcome) (max_actions : Nat)
    (g : G) : TurnProcessingResult × G :=
  match decision with
  | .decided actions =>
    let actions :=
      if max_actions < actions.length then actions.take max_actions
      else actions
    let res := execActions processors actions g
    (⟨agent_id, actions, res.1, TurnResult.success, none⟩, res.2)
  | .timed_out =>
    (⟨agent_id, [], [], TurnResult.timeout,
      some "Agent decision timeout"⟩, g)
  | .raised e =>
    (⟨agent_id, [], [], TurnResult.error, some e⟩, g)

/-- Claim C7.  When the decision call times out, `process_agent_turn`
returns a result whose outcome is the Timeout value — distinct from
both Success and Error — with an empty action list and empty execution
results, and the game state is returned exactly as it was at the start
of the turn: no write happens before the decision call resolves. -/
theorem process_agent_turn_timeout {G : Type}
    (processors : String → Option (AgentAction → G → PyResult ActionResult × G))
    (agent_id : String) (max_actions : Nat) (g : G) :
    process_agent_turn processors agent_id DecisionOutcome.timed_out
        max_actions g =
      (⟨agent_id, [], [], TurnResult.timeout,
        some "Agent decision timeout"⟩, g) ∧
    TurnResult.timeout ≠ TurnResult.success ∧
    TurnResult.timeout ≠ TurnResult.error := by
  exact ⟨rfl, by decide, by decide⟩

/-!
Map tiles, grid occupancy and unit production
(project_abandoned/entities/tile.py, lines 40-63;
project_abandoned/core/game_engine.py, lines 504-613,
`GameEngine._process_create_unit` / `_find_adjacent_free_tile`).
The tile grid is modelled as a function from coordinates to tiles with
the fixed map dimensions alongside; uuids are modelled as `Nat` ids
drawn from a counter.
-/

/-- The occupancy part of `Tile` (tile.py, lines 8-38): at most one
unit reference and one building reference, plus passability. -/
structure Tile where
  unit_id : Option Nat
  building_id : Option Nat
  is_passable : Bool
deriving Repr, DecidableEq

/-- `Tile.can_place_unit` (tile.py, lines 40-44). -/
def Tile.can_place_unit (t : Tile) : Bool :=
  t.is_passable && t.unit_id.isNone && t.building_id.isNone

/-- The tile grid with its dimensions. -/
structure GridState where
  map_width : Nat
  map_height : Nat
  tiles : Int → Int → Tile

/-- `GameState.get_tile` (game_state.py, lines 112-116). -/
def get_tile (g : GridState) (x y : Int) : Option Tile :=
  if 0 ≤ x ∧ x < (g.map_width : Int) ∧ 0 ≤ y ∧ y < (g.map_height : Int) then
    some (g.tiles x y)
  else none

/-- `tile.place_unit(unit_id)` on the tile at `(x, y)` (tile.py, lines
52-57): occupy the tile only when `can_place_unit` holds.  The engine
only calls this at coordinates returned by the free-tile search, which
are in bounds. -/
def place_unit_at (g : GridState) (x y : Int) (uid : Nat) : GridState :=
  match get_tile g x y with
  | some t =>
    if t.can_place_unit then
      { g with
        tiles := fun a b =>
          if a = x ∧ b = y then { t with unit_id := some uid }
          else g.tiles a b }
    else g
  | none => g

/-- The eight neighbor offsets probed by `_find_adjacent_free_tile`
(game_engine.py, line 604), in source order. -/
def adjacentOffsets : List (Int × Int) :=
  [(-1, -1), (-1, 0), (-1, 1), (0, -1), (0, 1), (1, -1), (1, 0), (1, 1)]

/-- One probe of `_find_adjacent_free_tile`: bounds check, then the
tile must accept a unit. -/
def probe (g : GridState) (x y : Int) (off : Int × Int) :
    Option (Int × Int) :=
  let nx := x + off.1
  let ny := y + off.2
  if 0 ≤ nx ∧ nx < (g.map_width : Int) ∧
      0 ≤ ny ∧ ny < (g.map_height : Int) then
    match get_tile g nx ny with
    | some t => if t.can_place_unit then some (nx, ny) else none
    | none => none
  else none

/-- `GameEngine._find_adjacent_free_tile` (game_engine.py, lines
601-613): the first of the eight surrounding tiles that is in bounds
and free. -/
def find_adjacent_free_tile (g : GridState) (x y : Int) :
    Option (Int × Int) :=
  adjacentOffsets.findSome? (probe g x y)

/-- The number of free adjacent tiles around `(x, y)`. -/
def free_adjacent_count (g : GridState) (x y : Int) : Nat :=
  (adjacentOffsets.filter (fun off => (probe g x y off).isSome)).length

/-- `total_cost[resource] = amount * quantity` over a cost dict. -/
def scaleCost (costs : Dict) (quantity : Nat) : Dict :=
  costs.map (fun p => (p.1, p.2 * (quantity : Int)))

/-- The `Unit(...)` construction inside `_process_create_unit`
(game_engine.py, lines 562-583): stats from the design (max health is
the design health), fresh turn flags, the per-unit creation cost. -/
def unit_from_design (design : UnitDesign) (agent_id faction_id : String)
    (x y : Int) (uid : Nat) (creation_cost : Dict) : Unit :=
  { unit_id := uid,
    name := design.name,
    faction_id := faction_id,
    owner_id := agent_id,
    x := x, y := y,
    stats := ⟨design.health, design.health, design.attack, design.defense,
      design.movement_speed, design.attack_range, design.sight_range⟩,
    abilities := design.abilities,
    has_moved := false, has_attacked := false, is_fortified := false,
    creation_cost := creation_cost,
    experience := 0, veterancy_level := 0 }

/-- Result of `_process_create_unit`. -/
inductive CreateUnitResult where
  | failure (error : String)
  | created (units_created : Nat) (unit_ids : List Nat)
deriving Repr, DecidableEq

/-- The placement loop of `_process_create_unit` (game_engine.py, lines
552-588), counting down the remaining quantity: find a free adjacent
tile; when none is left, refund the per-unit cost times the remaining
count (a raise inside the refund propagates) and stop; otherwise build
the unit, and — when the faction is under its unit cap — add it to the
faction and occupy the tile. -/
def createLoop (agent_id : String) (design : UnitDesign)
    (creation_cost : Dict) (bx bly : Int) :
    Nat → GridState → Faction → List Nat → Nat →
    GridState × Faction × List Nat × Option String
  | 0, g, f, created, _ => (g, f, created, none)
  | n + 1, g, f, created, uid =>
    match find_adjacent_free_tile g bx bly with
    | none =>
      let refund := scaleCost creation_cost (n + 1)
      match addLoop f.resources f.resources_gathered refund with
      | (r1, g1, e) =>
        (g, { f with resources := r1, resources_gathered := g1 }, created, e)
    | some pos =>
      match Faction.add_unit f
          (unit_from_design design agent_id f.faction_id pos.1 pos.2 uid
            creation_cost) with
      | (true, f2) =>
        createLoop agent_id design creation_cost bx bly n
          (place_unit_at g pos.1 pos.2 uid) f2 (created ++ [uid]) (uid + 1)
      | (false, _) =>
        createLoop agent_id design creation_cost bx bly n g f created
          (uid + 1)

/-- `GameEngine._process_create_unit` (game_engine.py, lines 504-599):
validate building, producibility and design; compute the total cost;
fail with no mutation when unaffordable; otherwise deduct the total
cost once and run the placement loop.  A raised exception is caught by
the surrounding handler into a failure result, keeping whatever
mutations were already made. -/
def process_create_unit (g : GridState) (f : Faction) (agent_id : String)
    (building_id : String) (unit_type : String) (quantity : Nat) :
    CreateUnitResult × GridState × Faction :=
  match f.get_building building_id with
  | none => (.failure "Building not found", g, f)
  | some building =>
    if !building.is_construction_complete then
      (.failure "Building still under construction", g, f)
    else if !(building.produces_units.contains unit_type) then
      (.failure ("Building cannot produce " ++ unit_type), g, f)
    else
      match f.custom_unit_designs.find? (fun p => p.1 == unit_type) with
      | none => (.failure ("Unit design not found"), g, f)
      | some des =>
        let creation_cost := des.2.creation_cost
        let total_cost := scaleCost creation_cost quantity
        if !(can_afford f.resources total_cost) then
          (.failure "Insufficient resources", g, f)
        else
          match spend_resources f.resources total_cost with
          | (_, r1, some e) =>
            (.failure ("Unit creation error: " ++ e), g,
              { f with resources := r1 })
          | (_, r1, none) =>
            let f1 := { f with resources := r1 }
            match createLoop agent_id des.2 creation_cost building.x
                building.y quantity g f1 [] 0 with
            | (g2, f2, _created, some e) =>
              (.failure ("Unit creation error: " ++ e), g2, f2)
            | (g2, f2, created, none) =>
              (.created created.length created, g2, f2)

theorem findSome?_eq_some_spec {α β : Type} (fn : α → Option β) (b : β) :
    ∀ l : List α, l.findSome? fn = some b → ∃ a ∈ l, fn a = some b := by
  intro l
  induction l with
  | nil => intro h; simp [List.findSome?] at h
  | cons a rest ih =>
    intro h
    cases hf : fn a with
    | some b2 =>
      have hred : List.findSome? fn (a :: rest) = some b2 := by
        rw [List.findSome?_cons, hf]
      rw [hred] at h
      cases h
      exact ⟨a, List.mem_cons_self a rest, hf⟩
    | none =>
      have hred : List.findSome? fn (a :: rest) = List.findSome? fn rest := by
        rw [List.findSome?_cons, hf]
      rw [hred] at h
      obtain ⟨a2, hmem, hfa⟩ := ih h
      exact ⟨a2, List.mem_cons_of_mem a hmem, hfa⟩

theorem findSome?_eq_none_spec {α β : Type} (fn : α → Option β) :
    ∀ l : List α, l.findSome? fn = none → ∀ a ∈ l, fn a = none := by
  intro l
  induction l with
  | nil => intro _ a ha; exact absurd ha (List.not_mem_nil a)
  | cons a rest ih =>
    intro h a2 ha2
    cases hf : fn a with
    | some b2 =>
      have hred : List.findSome? fn (a :: rest) = some b2 := by
        rw [List.findSome?_cons, hf]
      rw [hred] at h
      exact absurd h (by simp)
    | none =>
      have hred : List.findSome? fn (a :: rest) = List.findSome? fn rest := by
        rw [List.findSome?_cons, hf]
      rw [hred] at h
      rcases List.mem_cons.mp ha2 with rfl | hmem
      · exact hf
      · exact ih h a2 hmem

theorem probe_eq_some (g : GridState) (x y : Int) (off : Int × Int)
    (pos : Int × Int) (h : probe g x y off = some pos) :
    pos = (x + off.1, y + off.2) ∧
    ∃ t, get_tile g pos.1 pos.2 = some t ∧ t.can_place_unit = true := by
  unfold probe at h
  by_cases hb : 0 ≤ x + off.1 ∧ x + off.1 < (g.map_width : Int) ∧
      0 ≤ y + off.2 ∧ y + off.2 < (g.map_height : Int)
  · rw [if_pos hb] at h
    cases ht : get_tile g (x + off.1) (y + off.2) with
    | some t =>
      rw [ht] at h
      dsimp only at h
      by_cases hc : t.can_place_unit = true
      · rw [if_pos hc] at h
        cases h
        exact ⟨rfl, t, ht, hc⟩
      · rw [if_neg hc] at h
        exact absurd h (by simp)
    | none =>
      rw [ht] at h
      exact absurd h (by simp)
  · rw [if_neg hb] at h
    exact absurd h (by simp)

theorem get_tile_place_other (g : GridState) (px py : Int) (uid : Nat)
    (a b : Int) (hne : ¬(a = px ∧ b = py)) :
    get_tile (place_unit_at g px py uid) a b = get_tile g a b := by
  unfold place_unit_at
  cases ht : get_tile g px py with
  | some t =>
    dsimp only
    by_cases hc : t.can_place_unit = true
    · rw [if_pos hc]
      unfold get_tile
      dsimp only
      by_cases hbnd : 0 ≤ a ∧ a < (g.map_width : Int) ∧
          0 ≤ b ∧ b < (g.map_height : Int)
      · rw [if_pos hbnd, if_pos hbnd, if_neg hne]
      · rw [if_neg hbnd, if_neg hbnd]
    · rw [if_neg hc]
  | none => rfl

theorem get_tile_place_self (g : GridState) (px py : Int) (uid : Nat)
    (t : Tile) (ht : get_tile g px py = some t)
    (hc : t.can_place_unit = true) :
    get_tile (place_unit_at g px py uid) px py =
      some { t with unit_id := some uid } := by
  unfold place_unit_at
  rw [ht]
  dsimp only
  rw [if_pos hc]
  unfold get_tile at ht ⊢
  dsimp only
  by_cases hbnd : 0 ≤ px ∧ px < (g.map_width : Int) ∧
      0 ≤ py ∧ py < (g.map_height : Int)
  · rw [if_pos hbnd] at ht ⊢
    cases ht
    simp
  · rw [if_neg hbnd] at ht
    exact absurd ht (by simp)

theorem place_unit_at_dims (g : GridState) (px py : Int) (uid : Nat) :
    (place_unit_at g px py uid).map_width = g.map_width ∧
    (place_unit_at g px py uid).map_height = g.map_height := by
  unfold place_unit_at
  cases ht : get_tile g px py with
  | some t =>
    dsimp only
    by_cases hcc : t.can_place_unit = true
    · rw [if_pos hcc]; exact ⟨rfl, rfl⟩
    · rw [if_neg hcc]; exact ⟨rfl, rfl⟩
  | none => exact ⟨rfl, rfl⟩

theorem probe_place (g : GridState) (x y : Int) (pos : Int × Int)
    (uid : Nat) (t : Tile) (ht : get_tile g pos.1 pos.2 = some t)
    (hc : t.can_place_unit = true) (off : Int × Int) :
    probe (place_unit_at g pos.1 pos.2 uid) x y off =
      if (x + off.1, y + off.2) = pos then none else probe g x y off := by
  have hdim := place_unit_at_dims g pos.1 pos.2 uid
  by_cases heq : (x + off.1, y + off.2) = pos
  · rw [if_pos heq]
    unfold probe
    dsimp only
    rw [hdim.1, hdim.2]
    by_cases hbnd : 0 ≤ x + off.1 ∧ x + off.1 < (g.map_width : Int) ∧
        0 ≤ y + off.2 ∧ y + off.2 < (g.map_height : Int)
    · rw [if_pos hbnd]
      have hxy : x + off.1 = pos.1 ∧ y + off.2 = pos.2 :=
        ⟨congrArg Prod.fst heq, congrArg Prod.snd heq⟩
      rw [hxy.1, hxy.2, get_tile_place_self g pos.1 pos.2 uid t ht hc]
      simp [Tile.can_place_unit]
    · rw [if_neg hbnd]
  · rw [if_neg heq]
    unfold probe
    dsimp only
    rw [hdim.1, hdim.2]
    by_cases hbnd : 0 ≤ x + off.1 ∧ x + off.1 < (g.map_width : Int) ∧
        0 ≤ y + off.2 ∧ y + off.2 < (g.map_height : Int)
    · rw [if_pos hbnd, if_pos hbnd]
      rw [get_tile_place_other g pos.1 pos.2 uid (x + off.1) (y + off.2)]
      intro hcon
      exact heq (Prod.ext hcon.1 hcon.2)
    · rw [if_neg hbnd, if_neg hbnd]

theorem filter_congr_own {α : Type} (p q : α → Bool) :
    ∀ l : List α, (∀ a ∈ l, p a = q a) → l.filter p = l.filter q := by
  intro l
  induction l with
  | nil => intro _; rfl
  | cons a rest ih =>
    intro h
    have ha := h a (List.mem_cons_self a rest)
    have hrest := ih (fun b hb => h b (List.mem_cons_of_mem a hb))
    simp only [List.filter_cons, ha, hrest]

theorem filter_length_update {α : Type} (p q : α → Bool) :
    ∀ l : List α, l.Nodup → ∀ a0 ∈ l, p a0 = true → q a0 = false →
    (∀ b ∈ l, b ≠ a0 → q b = p b) →
    (l.filter q).length + 1 = (l.filter p).length := by
  intro l
  induction l with
  | nil => intro _ a0 ha0; exact absurd ha0 (List.not_mem_nil a0)
  | cons a rest ih =>
    intro hnd a0 ha0 hp hq hpt
    rw [List.nodup_cons] at hnd
    rcases List.mem_cons.mp ha0 with rfl | hmem
    · have hrest : rest.filter q = rest.filter p := by
        apply filter_congr_own
        intro b hb
        exact hpt b (List.mem_cons_of_mem a0 hb)
          (fun hcon => hnd.1 (hcon ▸ hb))
      simp only [List.filter_cons, hp, hq]
      simp [hrest]
    · have ha : q a = p a :=
        hpt a (List.mem_cons_self a rest) (fun hcon => hnd.1 (hcon ▸ hmem))
      have hstep := ih hnd.2 a0 hmem hp hq
        (fun b hb hbne => hpt b (List.mem_cons_of_mem a hb) hbne)
      simp only [List.filter_cons, ha]
      cases hpa : p a
      · simp only [Bool.false_eq_true, if_false]
        exact hstep
      · simp only [if_true]
        simp only [List.length_cons]
        omega

theorem filterIsSome_len_zero {α β : Type} (fn : α → Option β) :
    ∀ l : List α, (∀ a ∈ l, fn a = none) →
    (l.filter (fun a => (fn a).isSome)).length = 0 := by
  intro l
  induction l with
  | nil => intro _; rfl
  | cons a rest ih =>
    intro h
    have ha := h a (List.mem_cons_self a rest)
    simp only [List.filter_cons, ha, Option.isSome_none,
      Bool.false_eq_true, if_false]
    exact ih (fun b hb => h b (List.mem_cons_of_mem a hb))

theorem adjacentOffsets_nodup : adjacentOffsets.Nodup := by decide

theorem zero_not_mem_adjacentOffsets :
    ((0 : Int), (0 : Int)) ∉ adjacentOffsets := by decide

theorem free_count_zero_of_find_none (g : GridState) (x y : Int)
    (h : find_adjacent_free_tile g x y = none) :
    free_adjacent_count g x y = 0 := by
  unfold free_adjacent_count
  exact filterIsSome_len_zero (probe g x y) adjacentOffsets
    (findSome?_eq_none_spec (probe g x y) adjacentOffsets h)

theorem free_count_place (g : GridState) (x y : Int) (pos : Int × Int)
    (uid : Nat) (t : Tile)
    (hfind : find_adjacent_free_tile g x y = some pos)
    (ht : get_tile g pos.1 pos.2 = some t)
    (hc : t.can_place_unit = true) :
    free_adjacent_count (place_unit_at g pos.1 pos.2 uid) x y + 1 =
      free_adjacent_count g x y := by
  obtain ⟨off0, hoff0, hprobe0⟩ :=
    findSome?_eq_some_spec (probe g x y) pos adjacentOffsets hfind
  have hpos := (probe_eq_some g x y off0 pos hprobe0).1
  unfold free_adjacent_count
  apply filter_length_update _ _ adjacentOffsets adjacentOffsets_nodup
    off0 hoff0
  · rw [hprobe0]; rfl
  · rw [probe_place g x y pos uid t ht hc off0, if_pos hpos.symm]
    rfl
  · intro off hoffmem hne
    rw [probe_place g x y pos uid t ht hc off]
    rw [if_neg]
    intro hcon
    apply hne
    have h1 : x + off.1 = x + off0.1 := by
      have := hcon.trans hpos
      exact congrArg Prod.fst this
    have h2 : y + off.2 = y + off0.2 := by
      have := hcon.trans hpos
      exact congrArg Prod.snd this
    have : off.1 = off0.1 := by omega
    have h4 : off.2 = off0.2 := by omega
    exact Prod.ext this h4

theorem spendLoop_ok (costs : List (String × Int)) :
    ∀ resources : Dict, (∀ p ∈ costs, hasKey resources p.1 = true) →
    (spendLoop resources costs).2 = none := by
  induction costs with
  | nil => intro resources _; rfl
  | cons p rest ih =>
    intro resources h
    have hp := h p (List.mem_cons_self p rest)
    simp only [spendLoop, subResource, hp, if_true]
    apply ih
    intro p2 hp2
    rw [hasKey_adjust]
    exact h p2 (List.mem_cons_of_mem p hp2)

theorem scaleCost_keys (costs : Dict) (q : Nat) :
    (scaleCost costs q).map Prod.fst = costs.map Prod.fst := by
  unfold scaleCost
  rw [List.map_map]
  rfl

theorem mem_scaleCost_key (costs : Dict) (q : Nat) (p : String × Int)
    (h : p ∈ scaleCost costs q) : ∃ p2 ∈ costs, p.1 = p2.1 := by
  unfold scaleCost at h
  rw [List.mem_map] at h
  obtain ⟨p2, hp2, hEq⟩ := h
  exact ⟨p2, hp2, by rw [← hEq]⟩

theorem dGet_scaleCost (costs : Dict) (q : Nat) (r : String) :
    dGet (scaleCost costs q) r = dGet costs r * (q : Int) := by
  induction costs with
  | nil => simp [scaleCost, dGet]
  | cons p rest ih =>
    unfold scaleCost at ih ⊢
    simp only [List.map_cons, dGet]
    by_cases hpr : p.1 = r
    · have : (p.1 == r) = true := by simp [hpr]
      simp [this]
    · have : (p.1 == r) = false := by
        simp only [beq_eq_false_iff_ne]; exact hpr
      simp [this, ih]

theorem addLoop_spec (amounts : List (String × Int)) :
    ∀ (resources gathered : Dict),
    (amounts.map Prod.fst).Nodup →
    (∀ p ∈ amounts, hasKey gathered p.1 = true) →
    (addLoop resources gathered amounts).2.2 = none ∧
    (∀ rk, dGet (addLoop resources gathered amounts).1 rk =
      dGet resources rk + dGet amounts rk) := by
  induction amounts with
  | nil =>
    intro resources gathered _ _
    exact ⟨rfl, fun rk => by simp [addLoop, dGet]⟩
  | cons p rest ih =>
    intro resources gathered hnd hkeys
    have hp := hkeys p (List.mem_cons_self p rest)
    simp only [List.map_cons, List.nodup_cons] at hnd
    have hrestkeys : ∀ p2 ∈ rest,
        hasKey (adjust gathered p.1 (fun w => w + p.2)) p2.1 = true := by
      intro p2 hp2
      rw [hasKey_adjust]
      exact hkeys p2 (List.mem_cons_of_mem p hp2)
    have hstep := ih (dSet resources p.1 (dGet resources p.1 + p.2))
      (adjust gathered p.1 (fun w => w + p.2)) hnd.2 hrestkeys
    have hcons : addLoop resources gathered (p :: rest) =
        addLoop (dSet resources p.1 (dGet resources p.1 + p.2))
          (adjust gathered p.1 (fun w => w + p.2)) rest := by
      simp only [addLoop, addResource, hp, if_true]
    rw [hcons]
    refine ⟨hstep.1, ?_⟩
    intro rk
    rw [hstep.2 rk, dGet_dSet]
    by_cases hrk : rk = p.1
    · have hz : dGet rest rk = 0 := by
        apply dGet_eq_zero_of_not_hasKey
        rw [← Bool.not_eq_true, hasKey_iff_mem, hrk]
        exact hnd.1
      have hpk : (p.1 == rk) = true := by simp [hrk]
      rw [if_pos hrk, hz]
      simp only [dGet, hpk, if_true]
      rw [hrk]
      omega
    · have hpk : (p.1 == rk) = false := by
        simp only [beq_eq_false_iff_ne]
        exact fun hcon => hrk hcon.symm
      rw [if_neg hrk]
      simp only [dGet, hpk, Bool.false_eq_true, if_false]

theorem createLoop_count_refund (aid : String) (design : UnitDesign)
    (cost : Dict) (bx bly : Int) (hnd : (cost.map Prod.fst).Nodup) :
    ∀ (n : Nat) (g : GridState) (f : Faction) (created : List Nat)
      (uid : Nat),
    f.units.length + n ≤ MAX_UNITS_PER_PLAYER →
    free_adjacent_count g bx bly < n →
    (∀ p ∈ cost, hasKey f.resources_gathered p.1 = true) →
    (createLoop aid design cost bx bly n g f created uid).2.2.2 = none ∧
    (createLoop aid design cost bx bly n g f created uid).2.2.1.length =
      created.length + free_adjacent_count g bx bly ∧
    (∀ rk,
      dGet (createLoop aid design cost bx bly n g f created uid).2.1.resources
          rk =
        dGet f.resources rk +
          ((n : Int) - (free_adjacent_count g bx bly : Int)) * dGet cost rk) :=
    by
  intro n
  induction n with
  | zero =>
    intro g f created uid _ hfree _
    exact absurd hfree (Nat.not_lt_zero _)
  | succ n ih =>
    intro g f created uid hcap hfree hgk
    cases hfind : find_adjacent_free_tile g bx bly with
    | none =>
      have hcnt := free_count_zero_of_find_none g bx bly hfind
      have hgk2 : ∀ p ∈ scaleCost cost (n + 1),
          hasKey f.resources_gathered p.1 = true := by
        intro p hp
        obtain ⟨p2, hp2, hEq⟩ := mem_scaleCost_key cost (n + 1) p hp
        rw [hEq]
        exact hgk p2 hp2
      have hnd2 : ((scaleCost cost (n + 1)).map Prod.fst).Nodup := by
        rw [scaleCost_keys]
        exact hnd
      have haddspec := addLoop_spec (scaleCost cost (n + 1)) f.resources
        f.resources_gathered hnd2 hgk2
      rcases haddv : addLoop f.resources f.resources_gathered
          (scaleCost cost (n + 1)) with ⟨r1, g1, e⟩
      rw [haddv] at haddspec
      simp only at haddspec
      have hstep : createLoop aid design cost bx bly (n + 1) g f created uid =
          (g, { f with resources := r1, resources_gathered := g1 },
            created, e) := by
        simp only [createLoop, hfind, haddv]
      rw [hstep]
      refine ⟨haddspec.1, ?_, ?_⟩
      · simp [hcnt]
      · intro rk
        have hr := haddspec.2 rk
        simp only
        rw [hr, dGet_scaleCost, hcnt]
        push_cast
        ring
    | some pos =>
      obtain ⟨off0, hoff0, hprobe0⟩ :=
        findSome?_eq_some_spec (probe g bx bly) pos adjacentOffsets hfind
      obtain ⟨hposEq, t, ht, hcfree⟩ := probe_eq_some g bx bly off0 pos hprobe0
      have hcnt := free_count_place g bx bly pos uid t hfind ht hcfree
      have hlen : f.units.length < MAX_UNITS_PER_PLAYER := by omega
      have hexp : Faction.add_unit f
          (unit_from_design design aid f.faction_id pos.1 pos.2 uid cost) =
          (true,
            { f with
              units := f.units ++
                [{ unit_from_design design aid f.faction_id pos.1 pos.2 uid
                    cost with
                  faction_id := f.faction_id, owner_id := f.owner_id }],
              units_created := f.units_created + 1 }) := by
        unfold Faction.add_unit
        rw [if_neg (Nat.not_le.mpr hlen)]
      have hstep : createLoop aid design cost bx bly (n + 1) g f created uid =
          createLoop aid design cost bx bly n
            (place_unit_at g pos.1 pos.2 uid)
            { f with
              units := f.units ++
                [{ unit_from_design design aid f.faction_id pos.1 pos.2 uid
                    cost with
                  faction_id := f.faction_id, owner_id := f.owner_id }],
              units_created := f.units_created + 1 }
            (created ++ [uid]) (uid + 1) := by
        simp only [createLoop, hfind, hexp]
      have hcap2 :
          ({ f with
              units := f.units ++
                [{ unit_from_design design aid f.faction_id pos.1 pos.2 uid
                    cost with
                  faction_id := f.faction_id, owner_id := f.owner_id }],
              units_created := f.units_created + 1 } :
            Faction).units.length + n ≤ MAX_UNITS_PER_PLAYER := by
        simp only [List.length_append, List.length_cons, List.length_nil]
        omega
      have hfree2 :
          free_adjacent_count (place_unit_at g pos.1 pos.2 uid) bx bly < n :=
        by omega
      have ihres := ih (place_unit_at g pos.1 pos.2 uid)
        { f with
          units := f.units ++
            [{ unit_from_design design aid f.faction_id pos.1 pos.2 uid
                cost with
              faction_id := f.faction_id, owner_id := f.owner_id }],
          units_created := f.units_created + 1 }
        (created ++ [uid]) (uid + 1) hcap2 hfree2 hgk
      rw [hstep]
      refine ⟨ihres.1, ?_, ?_⟩
      · rw [ihres.2.1]
        simp only [List.length_append, List.length_cons, List.length_nil]
        omega
      · intro rk
        rw [ihres.2.2 rk]
        have hco :
            ((n : Int) -
              (free_adjacent_count (place_unit_at g pos.1 pos.2 uid) bx bly :
                Int)) =
            (((n + 1 : Nat) : Int) -
              (free_adjacent_count g bx bly : Int)) := by
          push_cast
          omega
        rw [hco]

theorem createLoop_placement (aid : String) (design : UnitDesign)
    (cost : Dict) (bx bly : Int) :
    ∀ (n : Nat) (g : GridState) (f : Faction) (created : List Nat)
      (uid : Nat),
    ∃ new : List Unit,
      (createLoop aid design cost bx bly n g f created uid).2.1.units =
        f.units ++ new ∧
      (∀ u ∈ new,
        (u.x - bx, u.y - bly) ∈ adjacentOffsets ∧
        ¬(u.x = bx ∧ u.y = bly) ∧
        ∃ t, get_tile g u.x u.y = some t ∧ t.unit_id = none ∧
          t.building_id = none ∧ t.is_passable = true) ∧
      new.Pairwise (fun u v => ¬(u.x = v.x ∧ u.y = v.y)) := by
  intro n
  induction n with
  | zero =>
    intro g f created uid
    exact ⟨[], by simp [createLoop], by simp, List.Pairwise.nil⟩
  | succ n ih =>
    intro g f created uid
    cases hfind : find_adjacent_free_tile g bx bly with
    | none =>
      rcases haddv : addLoop f.resources f.resources_gathered
          (scaleCost cost (n + 1)) with ⟨r1, g1, e⟩
      have hstep : createLoop aid design cost bx bly (n + 1) g f created uid =
          (g, { f with resources := r1, resources_gathered := g1 },
            created, e) := by
        simp only [createLoop, hfind, haddv]
      rw [hstep]
      exact ⟨[], by simp, by simp, List.Pairwise.nil⟩
    | some pos =>
      obtain ⟨off0, hoff0, hprobe0⟩ :=
        findSome?_eq_some_spec (probe g bx bly) pos adjacentOffsets hfind
      obtain ⟨hposEq, t, ht, hcfree⟩ := probe_eq_some g bx bly off0 pos hprobe0
      have hx1 : pos.1 = bx + off0.1 := congrArg Prod.fst hposEq
      have hy1 : pos.2 = bly + off0.2 := congrArg Prod.snd hposEq
      by_cases hlen : MAX_UNITS_PER_PLAYER ≤ f.units.length
      · have hexp : Faction.add_unit f
            (unit_from_design design aid f.faction_id pos.1 pos.2 uid cost) =
            (false, f) := by
          unfold Faction.add_unit
          rw [if_pos hlen]
        have hstep :
            createLoop aid design cost bx bly (n + 1) g f created uid =
            createLoop aid design cost bx bly n g f created (uid + 1) := by
          simp only [createLoop, hfind, hexp]
        rw [hstep]
        exact ih g f created (uid + 1)
      · have hexp : Faction.add_unit f
            (unit_from_design design aid f.faction_id pos.1 pos.2 uid cost) =
            (true,
              { f with
                units := f.units ++
                  [{ unit_from_design design aid f.faction_id pos.1 pos.2 uid
                      cost with
                    faction_id := f.faction_id, owner_id := f.owner_id }],
                units_created := f.units_created + 1 }) := by
          unfold Faction.add_unit
          rw [if_neg hlen]
        have hstep :
            createLoop aid design cost bx bly (n + 1) g f created uid =
            createLoop aid design cost bx bly n
              (place_unit_at g pos.1 pos.2 uid)
              { f with
                units := f.units ++
                  [{ unit_from_design design aid f.faction_id pos.1 pos.2 uid
                      cost with
                    faction_id := f.faction_id, owner_id := f.owner_id }],
                units_created := f.units_created + 1 }
              (created ++ [uid]) (uid + 1) := by
          simp only [createLoop, hfind, hexp]
        rw [hstep]
        obtain ⟨new2, hunits2, hprops2, hpair2⟩ :=
          ih (place_unit_at g pos.1 pos.2 uid)
            { f with
              units := f.units ++
                [{ unit_from_design design aid f.faction_id pos.1 pos.2 uid
                    cost with
                  faction_id := f.faction_id, owner_id := f.owner_id }],
              units_created := f.units_created + 1 }
            (created ++ [uid]) (uid + 1)
        have hnotpos : ∀ u ∈ new2, ¬(u.x = pos.1 ∧ u.y = pos.2) := by
          intro u hu hcon
          obtain ⟨-, -, t2, ht2, hunit2, -, -⟩ := hprops2 u hu
          rw [hcon.1, hcon.2,
            get_tile_place_self g pos.1 pos.2 uid t ht hcfree] at ht2
          cases ht2
          exact absurd hunit2 (by simp)
        have htrans : ∀ u ∈ new2,
            (u.x - bx, u.y - bly) ∈ adjacentOffsets ∧
            ¬(u.x = bx ∧ u.y = bly) ∧
            ∃ t2, get_tile g u.x u.y = some t2 ∧ t2.unit_id = none ∧
              t2.building_id = none ∧ t2.is_passable = true := by
          intro u hu
          obtain ⟨hoffm, hnb, t2, ht2, hu2, hb2, hp2⟩ := hprops2 u hu
          refine ⟨hoffm, hnb, t2, ?_, hu2, hb2, hp2⟩
          rw [← get_tile_place_other g pos.1 pos.2 uid u.x u.y
            (hnotpos u hu)]
          exact ht2
        refine ⟨{ unit_from_design design aid f.faction_id pos.1 pos.2 uid
            cost with
          faction_id := f.faction_id, owner_id := f.owner_id } :: new2,
          ?_, ?_, ?_⟩
        · rw [hunits2]
          simp
        · intro u hu
          rcases List.mem_cons.mp hu with rfl | hmem
          · constructor
            · show (pos.1 - bx, pos.2 - bly) ∈ adjacentOffsets
              have he1 : pos.1 - bx = off0.1 := by omega
              have he2 : pos.2 - bly = off0.2 := by omega
              rw [he1, he2]
              exact hoff0
            constructor
            · show ¬(pos.1 = bx ∧ pos.2 = bly)
              rintro ⟨hc1, hc2⟩
              have ho1 : off0.1 = 0 := by omega
              have ho2 : off0.2 = 0 := by omega
              have : off0 = ((0 : Int), (0 : Int)) := Prod.ext ho1 ho2
              rw [this] at hoff0
              exact zero_not_mem_adjacentOffsets hoff0
            · refine ⟨t, ht, ?_⟩
              have hc2 := hcfree
              unfold Tile.can_place_unit at hc2
              simp only [Bool.and_eq_true, Option.isNone_iff_eq_none] at hc2
              exact ⟨hc2.1.2, hc2.2, hc2.1.1⟩
          · exact htrans u hmem
        · rw [List.pairwise_cons]
          refine ⟨?_, hpair2⟩
          intro u hu hcon
          exact hnotpos u hu ⟨hcon.1.symm, hcon.2.symm⟩

/-- Claim C5.  A create-unit production action never places a produced
unit on the producing building's own tile nor on an occupied tile:
whatever the outcome, the units the action appends to the faction all
sit on pairwise-distinct tiles of the 8-neighborhood of the building
that were free (no unit reference, no building reference, passable)
before the action, so single occupancy per tile is preserved. -/
theorem production_spawn_placement (g : GridState) (f : Faction)
    (agent_id building_id unit_type : String) (quantity : Nat)
    (b : Building) (hb : f.get_building building_id = some b) :
    ∃ new : List Unit,
      (process_create_unit g f agent_id building_id unit_type
        quantity).2.2.units = f.units ++ new ∧
      (∀ u ∈ new,
        (u.x - b.x, u.y - b.y) ∈ adjacentOffsets ∧
        ¬(u.x = b.x ∧ u.y = b.y) ∧
        ∃ t, get_tile g u.x u.y = some t ∧ t.unit_id = none ∧
          t.building_id = none ∧ t.is_passable = true) ∧
      new.Pairwise (fun u v => ¬(u.x = v.x ∧ u.y = v.y)) := by
  unfold process_create_unit
  rw [hb]
  dsimp only
  by_cases h1 : b.is_construction_complete
  · rw [h1]
    simp only [Bool.not_true, Bool.false_eq_true, if_false]
    by_cases h2 : b.produces_units.contains unit_type
    · rw [h2]
      simp only [Bool.not_true, Bool.false_eq_true, if_false]
      cases hdes : f.custom_unit_designs.find? (fun p => p.1 == unit_type)
        with
      | none => exact ⟨[], by simp, by simp, List.Pairwise.nil⟩
      | some des =>
        dsimp only
        by_cases h3 : can_afford f.resources
            (scaleCost des.2.creation_cost quantity)
        · rw [h3]
          simp only [Bool.not_true, Bool.false_eq_true, if_false]
          rcases hspendv : spend_resources f.resources
              (scaleCost des.2.creation_cost quantity) with ⟨bb, r1, e⟩
          cases e with
          | some msg => exact ⟨[], by simp, by simp, List.Pairwise.nil⟩
          | none =>
            dsimp only
            obtain ⟨new, hunits, hprops, hpair⟩ :=
              createLoop_placement agent_id des.2 des.2.creation_cost b.x b.y
                quantity g { f with resources := r1 } [] 0
            rcases hloopv : createLoop agent_id des.2 des.2.creation_cost
                b.x b.y quantity g { f with resources := r1 } [] 0 with
              ⟨g2, f2, created2, e2⟩
            rw [hloopv] at hunits
            cases e2 with
            | some msg => exact ⟨new, hunits, hprops, hpair⟩
            | none => exact ⟨new, hunits, hprops, hpair⟩
        · rw [if_pos (show (!can_afford f.resources
              (scaleCost des.2.creation_cost quantity)) = true by
            rw [Bool.not_eq_true] at h3
            rw [h3]
            rfl)]
          exact ⟨[], by simp, by simp, List.Pairwise.nil⟩
    · rw [if_pos (by rw [Bool.not_eq_true] at h2; rw [h2]; rfl)]
      exact ⟨[], by simp, by simp, List.Pairwise.nil⟩
  · rw [if_pos (by rw [Bool.not_eq_true] at h1; rw [h1]; rfl)]
    exact ⟨[], by simp, by simp, List.Pairwise.nil⟩

/-- Witness for C5: a 2x2 map with a town center at (0, 0) and exactly
one free adjacent tile; producing two workers places only on free
neighbor tiles, never on the building's tile. -/
theorem production_spawn_placement_witness :
    let gW : GridState := ⟨2, 2, fun a b =>
      if a = 1 ∧ b = 0 then ⟨none, none, true⟩
      else if a = 0 ∧ b = 0 then ⟨none, some 99, true⟩
      else ⟨some 50, none, true⟩⟩
    let bW : Building := ⟨"b1", "TC", 0, 0, 100, 100, true, ["worker"],
      [], []⟩
    let design : UnitDesign := ⟨"Worker", "worker", 25, 3, 2, 2, 1, 3, [],
      [("gold", 10)]⟩
    let fW : Faction := ⟨"fa", "p1", "F", [("gold", 30)], [("gold", 0)],
      [], [bW], [("worker", design)], 0, 0⟩
    ∃ new : List Unit,
      (process_create_unit gW fW "p1" "b1" "worker" 2).2.2.units =
        fW.units ++ new ∧
      (∀ u ∈ new,
        (u.x - bW.x, u.y - bW.y) ∈ adjacentOffsets ∧
        ¬(u.x = bW.x ∧ u.y = bW.y) ∧
        ∃ t, get_tile gW u.x u.y = some t ∧ t.unit_id = none ∧
          t.building_id = none ∧ t.is_passable = true) ∧
      new.Pairwise (fun u v => ¬(u.x = v.x ∧ u.y = v.y)) := by
  intro gW bW design fW
  exact production_spawn_placement gW fW "p1" "b1" "worker" 2 bW (by decide)

/-- Claim C4.  When a create-unit action requests `quantity` units the
faction can afford but only `K < quantity` free adjacent tiles exist,
the action deducts the full cost once, refunds the unplaceable
remainder, reports exactly `K` units created, and the faction's balance
ends exactly `K` per-unit costs below its pre-action value.  (Side
conditions: the cost dict has unique keys, its resource kinds exist in
the faction's resource and gathered-counter dicts, and the faction is
under its unit cap.) -/
theorem production_partial_refund (g : GridState) (f : Faction)
    (agent_id building_id unit_type : String) (quantity : Nat)
    (b : Building) (design : UnitDesign)
    (hb : f.get_building building_id = some b)
    (hcc : b.is_construction_complete = true)
    (hprod : b.produces_units.contains unit_type = true)
    (hdes : f.custom_unit_designs.find? (fun p => p.1 == unit_type) =
      some (unit_type, design))
    (hafford : can_afford f.resources
      (scaleCost design.creation_cost quantity) = true)
    (hnd : (design.creation_cost.map Prod.fst).Nodup)
    (hrkeys : ∀ p ∈ design.creation_cost, hasKey f.resources p.1 = true)
    (hgkeys : ∀ p ∈ design.creation_cost,
      hasKey f.resources_gathered p.1 = true)
    (hcap : f.units.length + quantity ≤ MAX_UNITS_PER_PLAYER)
    (hfree : free_adjacent_count g b.x b.y < quantity) :
    (∃ ids, (process_create_unit g f agent_id building_id unit_type
        quantity).1 =
      CreateUnitResult.created (free_adjacent_count g b.x b.y) ids) ∧
    (∀ rk, dGet (process_create_unit g f agent_id building_id unit_type
        quantity).2.2.resources rk =
      dGet f.resources rk -
        (free_adjacent_count g b.x b.y : Int) * dGet design.creation_cost rk) :=
    by
  have hrkeys2 : ∀ p ∈ scaleCost design.creation_cost quantity,
      hasKey f.resources p.1 = true := by
    intro p hp
    obtain ⟨p2, hp2, hEq⟩ := mem_scaleCost_key design.creation_cost quantity
      p hp
    rw [hEq]
    exact hrkeys p2 hp2
  have hndtot : ((scaleCost design.creation_cost quantity).map
      Prod.fst).Nodup := by
    rw [scaleCost_keys]
    exact hnd
  have hsl := spendLoop_ok (scaleCost design.creation_cost quantity)
    f.resources hrkeys2
  have hspend : spend_resources f.resources
      (scaleCost design.creation_cost quantity) =
      (true,
        (spendLoop f.resources (scaleCost design.creation_cost quantity)).1,
        none) := by
    unfold spend_resources
    rw [if_pos hafford]
    dsimp only
    rw [hsl]
  have hsubtot := spendLoop_dGet (scaleCost design.creation_cost quantity)
    f.resources
    (spendLoop f.resources (scaleCost design.creation_cost quantity)).1
    hndtot
    (Prod.ext rfl hsl)
  have hloop := createLoop_count_refund agent_id design design.creation_cost
    b.x b.y hnd quantity g
    { f with resources :=
        (spendLoop f.resources (scaleCost design.creation_cost quantity)).1 }
    [] 0 hcap hfree hgkeys
  have hred : process_create_unit g f agent_id building_id unit_type
      quantity =
      match createLoop agent_id design design.creation_cost b.x b.y quantity
        g
        { f with resources :=
          (spendLoop f.resources
            (scaleCost design.creation_cost quantity)).1 }
        [] 0 with
      | (g2, f2, _created, some e) =>
        (CreateUnitResult.failure ("Unit creation error: " ++ e), g2, f2)
      | (g2, f2, created, none) =>
        (CreateUnitResult.created created.length created, g2, f2) := by
    unfold process_create_unit
    rw [hb]
    dsimp only
    rw [hcc]
    simp only [Bool.not_true, Bool.false_eq_true, if_false]
    rw [hprod]
    simp only [Bool.not_true, Bool.false_eq_true, if_false]
    rw [hdes]
    dsimp only
    rw [hafford]
    simp only [Bool.not_true, Bool.false_eq_true, if_false]
    rw [hspend]
  rcases hloopv : createLoop agent_id design design.creation_cost b.x b.y
      quantity g
      { f with resources :=
        (spendLoop f.resources (scaleCost design.creation_cost quantity)).1 }
      [] 0 with ⟨g2, f2, created2, e2⟩
  rw [hloopv] at hred hloop
  simp only at hloop
  obtain ⟨he2, hlen2, hres2⟩ := hloop
  subst he2
  rw [hred]
  constructor
  · refine ⟨created2, ?_⟩
    simp only
    rw [hlen2]
    simp
  · intro rk
    simp only
    rw [hres2 rk, hsubtot rk, dGet_scaleCost]
    ring

/-- Witness for C4: the same 2x2 map — two workers requested at gold 10
each with gold 30 in stock, but a single free adjacent tile: one unit
is created and the balance drops by exactly one unit cost, to 20. -/
theorem production_partial_refund_witness :
    let gW : GridState := ⟨2, 2, fun a b =>
      if a = 1 ∧ b = 0 then ⟨none, none, true⟩
      else if a = 0 ∧ b = 0 then ⟨none, some 99, true⟩
      else ⟨some 50, none, true⟩⟩
    let bW : Building := ⟨"b1", "TC", 0, 0, 100, 100, true, ["worker"],
      [], []⟩
    let design : UnitDesign := ⟨"Worker", "worker", 25, 3, 2, 2, 1, 3, [],
      [("gold", 10)]⟩
    let fW : Faction := ⟨"fa", "p1", "F", [("gold", 30)], [("gold", 0)],
      [], [bW], [("worker", design)], 0, 0⟩
    (∃ ids, (process_create_unit gW fW "p1" "b1" "worker" 2).1 =
      CreateUnitResult.created 1 ids) ∧
    dGet (process_create_unit gW fW "p1" "b1" "worker" 2).2.2.resources
      "gold" = 20 := by
  intro gW bW design fW
  have h := production_partial_refund gW fW "p1" "b1" "worker" 2 bW design
    (by decide) (by decide) (by decide) (by decide) (by decide) (by decide)
    (by decide) (by decide) (by decide) (by decide)
  have hcnt : free_adjacent_count gW bW.x bW.y = 1 := by decide
  constructor
  · obtain ⟨ids, hids⟩ := h.1
    rw [hcnt] at hids
    exact ⟨ids, hids⟩
  · have h2 := h.2 "gold"
    rw [hcnt] at h2
    rw [h2]
    decide

end GD
